import Mathlib

/-
  Verification development for the HyperDex region-local storage directory
  (src/hyperdaemon/datalayer.cc) and the append-only log segment list
  (src/disk/append_only_log_segment_list.h).

  The C++ code is shallowly embedded: the region-to-Disk map becomes an
  association list with std::map-like find/insert/erase semantics, the
  datalayer member functions become pure functions threading the state
  explicitly, and the per-disk operations of the external StorageEngine
  collaborator (hyperdisk::disk) are passed in as oracle functions
  `Disk -> ReturnCode`.
-/

namespace Datalayer

/-- Return codes of the storage engine, as enumerated by the spec
(hyperdisk::returncode in the code): Success, DidNothing, DataFull,
SearchFull, MissingDisk, Failure. -/
inductive ReturnCode : Type where
  | SUCCESS
  | DIDNOTHING
  | DATAFULL
  | SEARCHFULL
  | MISSINGDISK
  | FAILURE
deriving DecidableEq

open ReturnCode

/-- hyperdex::regionid: (space, subspace, prefix-depth, mask) coordinates.
The field `pfx` models the C++ field named `prefix`. -/
structure RegionID : Type where
  space : Nat
  subspace : Nat
  pfx : Nat
  mask : Nat
deriving DecidableEq

/-- hyperdex::entityid: a regionid plus a replica number.  In the C++ the
five coordinates are stored flat and `get_region()` rebuilds the regionid
from the first four; `e.space` below corresponds to `entityid::space`. -/
structure EntityID : Type where
  region : RegionID
  number : Nat
deriving DecidableEq

/-- entityid::space. -/
def EntityID.space (e : EntityID) : Nat := e.region.space

/-- hyperdex::instance, an opaque server-process identity. -/
abbrev Instance := Nat

/-- `std::numeric_limits<uint32_t>::max() - 1`, the sentinel space value
excluded from region hosting decisions in datalayer::prepare. -/
def sentinelSpace : Nat := 2 ^ 32 - 2

/-- A hosted hyperdisk::disk handle, recorded by its creation parameters
(`hyperdisk::disk::create(path, hasher, num_columns)`; the path is a
deterministic function of the regionid and is not modelled). -/
structure Disk : Type where
  hasher : Nat
  columns : Nat
deriving DecidableEq

/-- hyperdex::configuration, the immutable snapshot: region -> column count
table, the entity -> instance assignment table (ordered by region then
replica number), the transfer table, and the subspace -> hashing strategy
lookup (keyed by the subspace coordinates (space, subspace); the hasher
itself is opaque and modelled as a Nat). -/
structure Configuration : Type where
  regions : List (RegionID × Nat)
  entity_mapping : List (EntityID × Instance)
  transfers : List (Instance × (Nat × RegionID))
  disk_hasher : Nat → Nat → Nat

/-- configuration::transfers_to(us): the (transfer-id, region) pairs whose
destination instance is `us`. -/
def Configuration.transfersTo (cfg : Configuration) (us : Instance) :
    List (Nat × RegionID) :=
  cfg.transfers.filterMap (fun t => if t.1 = us then some t.2 else none)

/- ### The region -> Disk map (std::map<regionid, disk_ptr>) -/

/-- std::map::find on the association list: the value at the first entry
with the given key. -/
def mfind {β : Type} : List (RegionID × β) → RegionID → Option β
  | [], _ => none
  | (r', b) :: rest, r => if r' = r then some b else mfind rest r

/-- std::map::insert(make_pair(r, b)): inserts only when the key is absent,
otherwise leaves the existing entry in place. -/
def minsert {β : Type} (m : List (RegionID × β)) (r : RegionID) (b : β) :
    List (RegionID × β) :=
  if (mfind m r).isSome then m else m ++ [(r, b)]

/-- std::map::erase(iterator): removes the (unique, when keys are distinct)
entry with the given key; here the first matching entry. -/
def merase {β : Type} : List (RegionID × β) → RegionID → List (RegionID × β)
  | [], _ => []
  | (r', b) :: rest, r => if r' = r then rest else (r', b) :: merase rest r

/-- The directory invariant: at most one Disk per RegionID. -/
def nodupKeys {β : Type} (m : List (RegionID × β)) : Prop :=
  (m.map Prod.fst).Nodup

instance {β : Type} (m : List (RegionID × β)) : Decidable (nodupKeys m) :=
  List.nodupDecidable _

/-- The datalayer state relevant to the reconfiguration protocol: the
m_disks map.  (The reader/writer lock m_lock serializes access in the C++;
the embedding is sequential.) -/
structure DLState : Type where
  disks : List (RegionID × Disk)
deriving DecidableEq

/- ### prepare (datalayer.cc lines 97-151) and create_disk (451-463) -/

/-- A call to datalayer::create_disk(ri, hasher, num_columns), recorded in
order of issue. -/
structure CreateCall : Type where
  region : RegionID
  hasher : Nat
  columns : Nat
deriving DecidableEq

/-- State threaded through one prepare invocation: the live m_disks map,
the disk-creation calls issued so far, and the number of
configuration-inconsistency errors logged. -/
structure PrepState : Type where
  disks : List (RegionID × Disk)
  creates : List CreateCall
  errors : Nat
deriving DecidableEq

/-- datalayer::create_disk: constructs the disk (outside the lock) and
inserts it into m_disks; std::map::insert keeps an existing entry. -/
def create_disk (s : PrepState) (ri : RegionID) (hasher : Nat)
    (num_columns : Nat) : PrepState :=
  { disks := minsert s.disks ri ⟨hasher, num_columns⟩
    creates := s.creates ++ [⟨ri, hasher, num_columns⟩]
    errors := s.errors }

/-- One step of the first prepare loop, over an entity_mapping entry:
create the disk when the entity is not in the sentinel space, is assigned
to us, and its region is absent from the snapshot; log an error when the
region is missing from the column-count table. -/
def prepEntityStep (cfg : Configuration) (us : Instance)
    (snapshot : List (RegionID × Disk)) (s : PrepState)
    (p : EntityID × Instance) : PrepState :=
  if p.1.space ≠ sentinelSpace ∧ p.2 = us ∧ mfind snapshot p.1.region = none then
    match mfind cfg.regions p.1.region with
    | some sz =>
        create_disk s p.1.region
          (cfg.disk_hasher p.1.region.space p.1.region.subspace) sz
    | none => { s with errors := s.errors + 1 }
  else s

/-- One step of the second prepare loop, over a transfers_to(us) entry. -/
def prepTransferStep (cfg : Configuration) (_us : Instance)
    (snapshot : List (RegionID × Disk)) (s : PrepState)
    (t : Nat × RegionID) : PrepState :=
  if mfind snapshot t.2 = none then
    match mfind cfg.regions t.2 with
    | some sz =>
        create_disk s t.2 (cfg.disk_hasher t.2.space t.2.subspace) sz
    | none => { s with errors := s.errors + 1 }
  else s

/-- datalayer::prepare(newconfig, us): takes a snapshot of m_disks, then
walks the entity mapping and the transfer table, creating the missing
disks.  The not-yet-hosted check consults the snapshot, not the live map. -/
def prepare (cfg : Configuration) (us : Instance) (st : DLState) : PrepState :=
  let snapshot := st.disks
  let s1 := cfg.entity_mapping.foldl (prepEntityStep cfg us snapshot)
    ⟨st.disks, [], 0⟩
  (cfg.transfersTo us).foldl (prepTransferStep cfg us snapshot) s1

/-- The m_disks map after a prepare invocation. -/
def PrepState.toState (s : PrepState) : DLState := ⟨s.disks⟩

/- ### cleanup (datalayer.cc lines 159-202) and drop_disk (465-478) -/

/-- The keep flag computed by the cleanup loop body for one hosted region:
the C++ walks the entity_mapping range from lower_bound(entityid(r, 0)) to
upper_bound(entityid(r, UINT8_MAX)) — exactly the entities whose region is
r, since the map is ordered by region then replica number and the replica
number is a uint8 — looking for an assignment to us, and then walks
transfers_to(us) looking for r as a destination. -/
def keep_for (cfg : Configuration) (us : Instance) (r : RegionID) : Bool :=
  cfg.entity_mapping.any (fun p => decide (p.1.region = r) && decide (p.2 = us))
    || (cfg.transfersTo us).any (fun t => decide (t.2 = r))

/-- datalayer::drop_disk(ri): under the write lock, find the entry, call
disk->drop() (recorded in the dropped list) and erase it; absent entries
are left alone. -/
def drop_disk (acc : DLState × List RegionID) (r : RegionID) :
    DLState × List RegionID :=
  match mfind acc.1.disks r with
  | some _ => (⟨merase acc.1.disks r⟩, acc.2 ++ [r])
  | none => acc

/-- The body of the cleanup loop for one snapshot entry. -/
def cleanupStep (cfg : Configuration) (us : Instance)
    (acc : DLState × List RegionID) (p : RegionID × Disk) :
    DLState × List RegionID :=
  if keep_for cfg us p.1 then acc else drop_disk acc p.1

/-- datalayer::cleanup(newconfig, us): snapshot m_disks, then for every
hosted region compute the keep flag and drop_disk the region when it is
false.  Returns the new state and the regions whose disks were dropped. -/
def cleanup (cfg : Configuration) (us : Instance) (st : DLState) :
    DLState × List RegionID :=
  let snapshot := st.disks
  snapshot.foldl (cleanupStep cfg us) (st, [])

/- ### get / put / del (datalayer.cc lines 247-291) and get_region -/

/-- datalayer::get_region(ri): lookup under the read lock. -/
def get_region (st : DLState) (ri : RegionID) : Option Disk :=
  mfind st.disks ri

/-- datalayer::get: MISSINGDISK when the region is unhosted, otherwise the
disk's own result (the disk behaviour is the oracle diskGet; key and the
output parameters value/version live inside the oracle's result). -/
def dl_get (diskGet : Disk → Nat → ReturnCode) (st : DLState) (ri : RegionID)
    (key : Nat) : ReturnCode × DLState :=
  match get_region st ri with
  | none => (MISSINGDISK, st)
  | some d => (diskGet d key, st)

/-- datalayer::put: MISSINGDISK when the region is unhosted, otherwise
delegate to the disk. -/
def dl_put (diskPut : Disk → Nat → List Nat → Nat → ReturnCode) (st : DLState)
    (ri : RegionID) (key : Nat) (value : List Nat) (version : Nat) :
    ReturnCode × DLState :=
  match get_region st ri with
  | none => (MISSINGDISK, st)
  | some d => (diskPut d key value version, st)

/-- datalayer::del: MISSINGDISK when the region is unhosted, otherwise
delegate to the disk. -/
def dl_del (diskDel : Disk → Nat → ReturnCode) (st : DLState) (ri : RegionID)
    (key : Nat) : ReturnCode × DLState :=
  match get_region st ri with
  | none => (MISSINGDISK, st)
  | some d => (diskDel d key, st)

/- ### The maintenance scheduler: datalayer::flush_loop (lines 310-449)

One iteration of the while loop is modelled as a pure function.  The
per-disk maintenance operations preallocate / do_optimistic_io / flush /
do_mandatory_io of the external StorageEngine are oracles
`Disk -> ReturnCode`; the two ~500ms timers become the Booleans runPre and
runOpt (the pass body runs exactly when the timer test passes). -/

/-- Step 2 of an iteration: append every region of the snapshot that is not
already present to a round-robin queue (std::find over the deque). -/
def appendNew (q : List RegionID) (disks : List (RegionID × Disk)) :
    List RegionID :=
  disks.foldl (fun acc p => if p.1 ∈ acc then acc else acc ++ [p.1]) q

/-- The rotate-and-try walk shared by the preallocation and optimism
passes (datalayer.cc lines 346-374 and 382-410).  The C++ loop is
`for (i = 0; i < queue.size(); ++i)` where each step pops the front, pushes
it back again only when the region is in the map snapshot, attempts the
operation on regions that are in the snapshot, and breaks on SUCCESS.  The
oracle returns none for a region absent from the snapshot (a stale entry:
popped, not re-pushed, not attempted) and some rc for a hosted one.  The
loop is driven by the budget n = queue.size() - i, which a stale step
decreases by 2 (i rises, the size falls) and a live step by 1; the
budget-1 case is spelled out with the recursive calls of budget 0 inlined
so that the recursion is structural.
Returns (regions attempted, final queue, whether some attempt SUCCESSed). -/
def rrLoop (op : RegionID → Option ReturnCode) :
    Nat → List RegionID → List RegionID →
    List RegionID × List RegionID × Bool
  | 0, q, acc => (acc, q, false)
  | _ + 1, [], acc => (acc, [], false)
  | 1, r :: rest, acc =>
    match op r with
    | none => (acc, rest, false)
    | some rc =>
      if rc = ReturnCode.SUCCESS then (acc ++ [r], rest ++ [r], true)
      else (acc ++ [r], rest ++ [r], false)
  | n + 2, r :: rest, acc =>
    match op r with
    | none => rrLoop op n rest acc
    | some rc =>
      if rc = ReturnCode.SUCCESS then (acc ++ [r], rest ++ [r], true)
      else rrLoop op (n + 1) (rest ++ [r]) (acc ++ [r])

/-- One full pass over a round-robin queue (initial budget = queue size). -/
def rrPass (op : RegionID → Option ReturnCode) (q : List RegionID) :
    List RegionID × List RegionID × Bool :=
  rrLoop op q.length q []

/-- The observable outcome of the unconditional flush walk (step 5). -/
structure FlushOut : Type where
  results : List (RegionID × ReturnCode)
  mand_calls : List RegionID
  mand_errors : List (RegionID × ReturnCode)
  flush_errors : List (RegionID × ReturnCode)
  success : Bool
deriving DecidableEq

/-- One step of the flush walk: flush the disk; SUCCESS clears the sleep
flag; DIDNOTHING is ignored; DATAFULL or SEARCHFULL triggers
do_mandatory_io on that same disk, whose failure is logged (mand_errors)
and nothing more; any other flush result is logged (flush_errors). -/
def flushStep (flushO mandO : Disk → ReturnCode) (acc : FlushOut)
    (p : RegionID × Disk) : FlushOut :=
  let ret := flushO p.2
  let acc := { acc with results := acc.results ++ [(p.1, ret)] }
  if ret = ReturnCode.SUCCESS then { acc with success := true }
  else if ret = ReturnCode.DIDNOTHING then acc
  else if ret = ReturnCode.DATAFULL ∨ ret = ReturnCode.SEARCHFULL then
    let ioret := mandO p.2
    let acc := { acc with mand_calls := acc.mand_calls ++ [p.1] }
    if ioret ≠ ReturnCode.SUCCESS ∧ ioret ≠ ReturnCode.DIDNOTHING then
      { acc with mand_errors := acc.mand_errors ++ [(p.1, ioret)] }
    else acc
  else { acc with flush_errors := acc.flush_errors ++ [(p.1, ret)] }

/-- Step 5: the unconditional flush walk over every hosted disk
(datalayer.cc lines 415-440). -/
def flushPass (flushO mandO : Disk → ReturnCode)
    (disks : List (RegionID × Disk)) : FlushOut :=
  disks.foldl (flushStep flushO mandO) ⟨[], [], [], [], false⟩

/-- The scheduler's private state: the two round-robin deques. -/
structure SchedQueues : Type where
  preallocate_rr : List RegionID
  optimistic_rr : List RegionID
deriving DecidableEq

/-- Everything one iteration of the while loop produces. -/
structure IterOut : Type where
  queues : SchedQueues
  prealloc_attempts : List RegionID
  prealloc_success : Bool
  optimistic_attempts : List RegionID
  optimistic_success : Bool
  flush : FlushOut
  sleep : Bool

/-- One iteration of the flush_loop body over a fixed map snapshot:
append newly observed regions to both queues, run the two timed
rotate-and-try passes, run the unconditional flush walk, and sleep iff no
preallocate, optimistic-I/O or flush call returned SUCCESS (a successful
do_mandatory_io does not clear the sleep flag). -/
def flushLoopIter (preO optO flushO mandO : Disk → ReturnCode)
    (runPre runOpt : Bool) (disks : List (RegionID × Disk))
    (qs : SchedQueues) : IterOut :=
  let preQ := appendNew qs.preallocate_rr disks
  let optQ := appendNew qs.optimistic_rr disks
  let pre := if runPre then rrPass (fun r => (mfind disks r).map preO) preQ
    else ([], preQ, false)
  let opt := if runOpt then rrPass (fun r => (mfind disks r).map optO) optQ
    else ([], optQ, false)
  let f := flushPass flushO mandO disks
  { queues := ⟨pre.2.1, opt.2.1⟩
    prealloc_attempts := pre.1
    prealloc_success := pre.2.2
    optimistic_attempts := opt.1
    optimistic_success := opt.2.2
    flush := f
    sleep := !(pre.2.2 || opt.2.2 || f.success) }

/-- A sequence of preallocation windows over an unchanged map snapshot:
window j runs the rotate-and-try pass with that window's per-disk
preallocate behaviour.  Returns all regions attempted and the final
queue. -/
def rrWindows (ops : List (RegionID → Option ReturnCode)) (q : List RegionID) :
    List RegionID × List RegionID :=
  match ops with
  | [] => ([], q)
  | op :: rest =>
    let w := rrPass op q
    let future := rrWindows rest w.2.1
    (w.1 ++ future.1, future.2)

/- ### SegmentList (src/disk/append_only_log_segment_list.h) -/

/-- Modelled from the spec: the implementation of
hyperdex::append_only_log::segment_list is not under src (only its header
with the declarations of add, get_lower_bound, get_segment and sync is),
so the structure follows the spec: an immutable ordered sequence of
(lower_bound, segment handle) pairs, where add returns a new handle
holding all prior entries plus the new one at the end (copy-on-write) and
get_lower_bound / get_segment are positional access.  Segment handles are
opaque Nats; reference counting is ownership management with no observable
effect on the accessors and is not modelled. -/
structure SegmentList : Type where
  entries : List (Nat × Nat)
deriving DecidableEq

/-- Modelled from the spec: add(lower_bound, segment) returns a new list
handle with all prior entries plus the new entry at the end; the receiver
is a value and is not modified. -/
def SegmentList.add (l : SegmentList) (lower_bound : Nat) (seg : Nat) :
    SegmentList :=
  ⟨l.entries ++ [(lower_bound, seg)]⟩

/-- Modelled from the spec: positional access to the lower bound at index
i (out of range is a caller contract violation; the model returns 0). -/
def SegmentList.get_lower_bound (l : SegmentList) (i : Nat) : Nat :=
  (l.entries.getD i (0, 0)).1

/-- Modelled from the spec: positional access to the segment at index i. -/
def SegmentList.get_segment (l : SegmentList) (i : Nat) : Nat :=
  (l.entries.getD i (0, 0)).2

/-- Modelled from the spec: list length (number of segment rotations). -/
def SegmentList.length (l : SegmentList) : Nat :=
  l.entries.length

/- ### A generic view of the two prepare loops, for proofs

Both prepare loops have the shape: when a guard holds, look the region up
in the column-count table; create the disk on a hit, log an error on a
miss.  genStep abstracts that shape and genEmit is the disk-creation call
one element contributes (none when guarded out or when the column count is
missing). -/

/-- The common shape of prepEntityStep and prepTransferStep. -/
def genStep {α : Type} (c : α → Bool) (reg : α → RegionID) (hsh : α → Nat)
    (lk : α → Option Nat) (s : PrepState) (x : α) : PrepState :=
  if c x then
    match lk x with
    | some sz => create_disk s (reg x) (hsh x) sz
    | none => { s with errors := s.errors + 1 }
  else s

/-- The disk-creation call contributed by one loop element. -/
def genEmit {α : Type} (c : α → Bool) (reg : α → RegionID) (hsh : α → Nat)
    (lk : α → Option Nat) (x : α) : Option CreateCall :=
  if c x then (lk x).map (fun sz => ⟨reg x, hsh x, sz⟩) else none

/-- The guard of the entity loop of prepare, as a Boolean. -/
def entityCond (_cfg : Configuration) (us : Instance)
    (snapshot : List (RegionID × Disk)) (p : EntityID × Instance) : Bool :=
  decide (p.1.space ≠ sentinelSpace ∧ p.2 = us ∧ mfind snapshot p.1.region = none)

/-- The guard of the transfer loop of prepare, as a Boolean. -/
def transferCond (snapshot : List (RegionID × Disk)) (t : Nat × RegionID) :
    Bool :=
  decide (mfind snapshot t.2 = none)

/-- The disk-creation call contributed by an entity_mapping entry. -/
def emitEntity (cfg : Configuration) (us : Instance)
    (snapshot : List (RegionID × Disk)) :
    EntityID × Instance → Option CreateCall :=
  genEmit (entityCond cfg us snapshot) (fun p => p.1.region)
    (fun p => cfg.disk_hasher p.1.region.space p.1.region.subspace)
    (fun p => mfind cfg.regions p.1.region)

/-- The disk-creation call contributed by a transfers_to(us) entry. -/
def emitTransfer (cfg : Configuration)
    (snapshot : List (RegionID × Disk)) : Nat × RegionID → Option CreateCall :=
  genEmit (transferCond snapshot) (fun t => t.2)
    (fun t => cfg.disk_hasher t.2.space t.2.subspace)
    (fun t => mfind cfg.regions t.2)

/- ### Concrete fixtures used by the closed example theorems below -/

/-- A sample region. -/
def regA : RegionID := ⟨0, 0, 0, 0⟩

/-- A second sample region, distinct from regA. -/
def regB : RegionID := ⟨1, 0, 0, 0⟩

/-- A configuration assigning regA to instance 5 once. -/
def cfgA : Configuration := ⟨[(regA, 2)], [(⟨regA, 0⟩, 5)], [], fun _ _ => 7⟩

/-- A configuration assigning two replicas of regA to instance 5, so that
regA appears under two self-assigned entities. -/
def cfgDup : Configuration :=
  ⟨[(regA, 2)], [(⟨regA, 0⟩, 5), (⟨regA, 1⟩, 5)], [], fun _ _ => 7⟩

/- ### Association-map lemmas -/

theorem mfind_mem {β : Type} {m : List (RegionID × β)} {r : RegionID} {b : β}
    (h : mfind m r = some b) : (r, b) ∈ m := by
  induction m with
  | nil => simp [mfind] at h
  | cons p rest ih =>
    obtain ⟨r', b'⟩ := p
    by_cases hr : r' = r
    · subst hr
      simp [mfind] at h
      simp [h]
    · rw [mfind, if_neg hr] at h
      exact List.mem_cons_of_mem _ (ih h)

theorem mem_mfind_isSome {β : Type} {m : List (RegionID × β)} {r : RegionID}
    {b : β} (h : (r, b) ∈ m) : (mfind m r).isSome := by
  induction m with
  | nil => simp at h
  | cons p rest ih =>
    obtain ⟨r', b'⟩ := p
    by_cases hr : r' = r
    · simp [mfind, hr]
    · rw [mfind, if_neg hr]
      rcases List.mem_cons.mp h with heq | hmem
      · exact absurd (congrArg Prod.fst heq).symm hr
      · exact ih hmem

theorem mfind_eq_none {β : Type} {m : List (RegionID × β)} {r : RegionID} :
    mfind m r = none ↔ r ∉ m.map Prod.fst := by
  induction m with
  | nil => simp [mfind]
  | cons p rest ih =>
    obtain ⟨r', b'⟩ := p
    by_cases hr : r' = r
    · subst hr
      simp [mfind]
    · rw [mfind, if_neg hr]
      simp only [List.map_cons, List.mem_cons]
      constructor
      · intro h hc
        rcases hc with hc | hc
        · exact hr hc.symm
        · exact (ih.mp h) hc
      · intro h
        exact ih.mpr (fun hc => h (Or.inr hc))

theorem mfind_append_some {β : Type} {m m₂ : List (RegionID × β)}
    {r : RegionID} {b : β} (h : mfind m r = some b) :
    mfind (m ++ m₂) r = some b := by
  induction m with
  | nil => simp [mfind] at h
  | cons p rest ih =>
    obtain ⟨r', b'⟩ := p
    by_cases hr : r' = r
    · rw [mfind, if_pos hr] at h
      rw [List.cons_append, mfind, if_pos hr]
      exact h
    · rw [mfind, if_neg hr] at h
      rw [List.cons_append, mfind, if_neg hr]
      exact ih h

theorem mfind_append_none {β : Type} {m m₂ : List (RegionID × β)}
    {r : RegionID} (h : mfind m r = none) :
    mfind (m ++ m₂) r = mfind m₂ r := by
  induction m with
  | nil => simp
  | cons p rest ih =>
    obtain ⟨r', b'⟩ := p
    by_cases hr : r' = r
    · rw [mfind, if_pos hr] at h
      exact absurd h (by simp)
    · rw [mfind, if_neg hr] at h
      rw [List.cons_append, mfind, if_neg hr]
      exact ih h

theorem mfind_minsert_preserve {β : Type} {m : List (RegionID × β)}
    {r' : RegionID} {b' : β} (r : RegionID) (b : β)
    (h : mfind m r' = some b') : mfind (minsert m r b) r' = some b' := by
  unfold minsert
  by_cases hs : (mfind m r).isSome
  · rw [if_pos hs]
    exact h
  · rw [if_neg hs]
    exact mfind_append_some h

theorem mfind_minsert_isSome {β : Type} (m : List (RegionID × β))
    (r : RegionID) (b : β) : (mfind (minsert m r b) r).isSome := by
  unfold minsert
  by_cases hs : (mfind m r).isSome
  · rw [if_pos hs]
    exact hs
  · rw [if_neg hs]
    rw [Option.not_isSome_iff_eq_none] at hs
    rw [mfind_append_none hs]
    simp [mfind]

theorem nodupKeys_minsert {β : Type} {m : List (RegionID × β)}
    (r : RegionID) (b : β) (h : nodupKeys m) : nodupKeys (minsert m r b) := by
  unfold minsert
  by_cases hs : (mfind m r).isSome
  · rw [if_pos hs]
    exact h
  · rw [if_neg hs]
    rw [Option.not_isSome_iff_eq_none, mfind_eq_none] at hs
    unfold nodupKeys at h ⊢
    rw [List.map_append]
    simp only [List.map_cons, List.map_nil]
    rw [List.nodup_append]
    refine ⟨h, List.nodup_singleton r, ?_⟩
    intro a ha hb
    rw [List.mem_singleton] at hb
    subst hb
    exact hs ha

theorem merase_sublist {β : Type} (m : List (RegionID × β)) (r : RegionID) :
    (merase m r).Sublist m := by
  induction m with
  | nil => simp [merase]
  | cons p rest ih =>
    obtain ⟨r', b'⟩ := p
    by_cases hr : r' = r
    · rw [merase, if_pos hr]
      exact List.sublist_cons_self _ _
    · rw [merase, if_neg hr]
      exact List.Sublist.cons₂ _ ih

theorem nodupKeys_merase {β : Type} {m : List (RegionID × β)} (r : RegionID)
    (h : nodupKeys m) : nodupKeys (merase m r) :=
  List.Nodup.sublist (List.Sublist.map Prod.fst (merase_sublist m r)) h

theorem mfind_merase_ne {β : Type} {m : List (RegionID × β)} {r₀ r : RegionID}
    (hne : r₀ ≠ r) : mfind (merase m r₀) r = mfind m r := by
  induction m with
  | nil => simp [merase]
  | cons p rest ih =>
    obtain ⟨r', b'⟩ := p
    by_cases hr : r' = r₀
    · rw [merase, if_pos hr, mfind, if_neg (by rw [hr]; exact hne)]
    · rw [merase, if_neg hr]
      by_cases hr2 : r' = r
      · rw [mfind, if_pos hr2, mfind, if_pos hr2]
      · rw [mfind, if_neg hr2, mfind, if_neg hr2]
        exact ih

theorem mfind_merase_none {β : Type} {m : List (RegionID × β)}
    {r₀ r : RegionID} (h : mfind m r = none) :
    mfind (merase m r₀) r = none := by
  rw [mfind_eq_none] at h ⊢
  intro hc
  exact h (List.Sublist.subset (List.Sublist.map Prod.fst (merase_sublist m r₀)) hc)

theorem mfind_merase_self {β : Type} {m : List (RegionID × β)} {r : RegionID}
    (h : nodupKeys m) : mfind (merase m r) r = none := by
  induction m with
  | nil => simp [merase, mfind]
  | cons p rest ih =>
    obtain ⟨r', b'⟩ := p
    unfold nodupKeys at h
    simp only [List.map_cons, List.nodup_cons] at h
    by_cases hr : r' = r
    · rw [merase, if_pos hr]
      rw [mfind_eq_none]
      rw [hr] at h
      exact h.1
    · rw [merase, if_neg hr, mfind, if_neg hr]
      exact ih h.2

/- ### cleanup lemmas -/

theorem cleanup_fold_keep {cfg : Configuration} {us : Instance}
    {r : RegionID} (hkeep : keep_for cfg us r = true) :
    ∀ (l : List (RegionID × Disk)) (acc : DLState × List RegionID),
      mfind (l.foldl (cleanupStep cfg us) acc).1.disks r = mfind acc.1.disks r := by
  intro l
  induction l with
  | nil => intro acc; rfl
  | cons p rest ih =>
    intro acc
    rw [List.foldl_cons, ih]
    unfold cleanupStep
    by_cases hk : keep_for cfg us p.1 = true
    · rw [if_pos hk]
    · rw [if_neg hk]
      unfold drop_disk
      cases hf : mfind acc.1.disks p.1 with
      | none => rfl
      | some d =>
        have hne : p.1 ≠ r := fun hc => hk (hc ▸ hkeep)
        exact mfind_merase_ne hne

theorem cleanup_fold_none {cfg : Configuration} {us : Instance} {r : RegionID} :
    ∀ (l : List (RegionID × Disk)) (acc : DLState × List RegionID),
      mfind acc.1.disks r = none →
      mfind (l.foldl (cleanupStep cfg us) acc).1.disks r = none := by
  intro l
  induction l with
  | nil => intro acc h; exact h
  | cons p rest ih =>
    intro acc h
    rw [List.foldl_cons]
    apply ih
    unfold cleanupStep
    by_cases hk : keep_for cfg us p.1 = true
    · rw [if_pos hk]; exact h
    · rw [if_neg hk]
      unfold drop_disk
      cases hf : mfind acc.1.disks p.1 with
      | none => exact h
      | some d => exact mfind_merase_none h

theorem cleanup_fold_nodup {cfg : Configuration} {us : Instance} :
    ∀ (l : List (RegionID × Disk)) (acc : DLState × List RegionID),
      nodupKeys acc.1.disks →
      nodupKeys (l.foldl (cleanupStep cfg us) acc).1.disks := by
  intro l
  induction l with
  | nil => intro acc h; exact h
  | cons p rest ih =>
    intro acc h
    rw [List.foldl_cons]
    apply ih
    unfold cleanupStep
    by_cases hk : keep_for cfg us p.1 = true
    · rw [if_pos hk]; exact h
    · rw [if_neg hk]
      unfold drop_disk
      cases hf : mfind acc.1.disks p.1 with
      | none => exact h
      | some d => exact nodupKeys_merase _ h

theorem cleanup_fold_dropped_mono {cfg : Configuration} {us : Instance}
    {x : RegionID} :
    ∀ (l : List (RegionID × Disk)) (acc : DLState × List RegionID),
      x ∈ acc.2 → x ∈ (l.foldl (cleanupStep cfg us) acc).2 := by
  intro l
  induction l with
  | nil => intro acc h; exact h
  | cons p rest ih =>
    intro acc h
    rw [List.foldl_cons]
    apply ih
    unfold cleanupStep
    by_cases hk : keep_for cfg us p.1 = true
    · rw [if_pos hk]; exact h
    · rw [if_neg hk]
      unfold drop_disk
      cases hf : mfind acc.1.disks p.1 with
      | none => exact h
      | some d => exact List.mem_append_left _ h

theorem cleanup_fold_drops {cfg : Configuration} {us : Instance} {r : RegionID}
    (hdrop : keep_for cfg us r = false) :
    ∀ (l : List (RegionID × Disk)) (acc : DLState × List RegionID),
      nodupKeys acc.1.disks →
      (∃ d', (r, d') ∈ l) → (mfind acc.1.disks r).isSome →
      mfind (l.foldl (cleanupStep cfg us) acc).1.disks r = none ∧
        r ∈ (l.foldl (cleanupStep cfg us) acc).2 := by
  intro l
  induction l with
  | nil =>
    intro acc _ hmem _
    obtain ⟨d', hd'⟩ := hmem
    simp at hd'
  | cons p rest ih =>
    intro acc hnd hmem hsome
    rw [List.foldl_cons]
    by_cases hpr : p.1 = r
    · -- The loop reaches the entry for r: keep is false, so drop_disk runs.
      have hk : keep_for cfg us p.1 = false := hpr ▸ hdrop
      rw [cleanupStep, hk]
      simp only [Bool.false_eq_true, if_false]
      obtain ⟨d, hd⟩ := Option.isSome_iff_exists.mp hsome
      rw [drop_disk, hpr, hd]
      constructor
      · exact cleanup_fold_none rest _ (by simpa using mfind_merase_self hnd)
      · exact cleanup_fold_dropped_mono rest _ (by simp)
    · -- A different region: r survives this step untouched.
      have hmem' : ∃ d', (r, d') ∈ rest := by
        obtain ⟨d', hd'⟩ := hmem
        rcases List.mem_cons.mp hd' with heq | hm
        · exact absurd (congrArg Prod.fst heq).symm (by simpa using hpr)
        · exact ⟨d', hm⟩
      have hstep1 : nodupKeys (cleanupStep cfg us acc p).1.disks := by
        unfold cleanupStep
        by_cases hk : keep_for cfg us p.1 = true
        · rw [if_pos hk]; exact hnd
        · rw [if_neg hk]
          unfold drop_disk
          cases hf : mfind acc.1.disks p.1 with
          | none => exact hnd
          | some d => exact nodupKeys_merase _ hnd
      have hstep2 : mfind (cleanupStep cfg us acc p).1.disks r =
          mfind acc.1.disks r := by
        unfold cleanupStep
        by_cases hk : keep_for cfg us p.1 = true
        · rw [if_pos hk]
        · rw [if_neg hk]
          unfold drop_disk
          cases hf : mfind acc.1.disks p.1 with
          | none => rfl
          | some d => exact mfind_merase_ne hpr
      exact ih _ hstep1 hmem' (hstep2 ▸ hsome)

/-- The keep flag in Prop form: self is assigned to some entity of the
region, or the region is a transfer target for self. -/
theorem keep_for_iff (cfg : Configuration) (us : Instance) (r : RegionID) :
    keep_for cfg us r = true ↔
      ((∃ en ins, (en, ins) ∈ cfg.entity_mapping ∧ en.region = r ∧ ins = us) ∨
        ∃ tid, (tid, r) ∈ cfg.transfersTo us) := by
  unfold keep_for
  rw [Bool.or_eq_true, List.any_eq_true, List.any_eq_true]
  constructor
  · rintro (⟨p, hp, hcond⟩ | ⟨t, ht, hcond⟩)
    · rw [Bool.and_eq_true, decide_eq_true_eq, decide_eq_true_eq] at hcond
      exact Or.inl ⟨p.1, p.2, hp, hcond.1, hcond.2⟩
    · rw [decide_eq_true_eq] at hcond
      exact Or.inr ⟨t.1, by rw [← hcond]; exact ht⟩
  · rintro (⟨en, ins, hmem, hr, hus⟩ | ⟨tid, hmem⟩)
    · exact Or.inl ⟨(en, ins), hmem, by simp [hr, hus]⟩
    · exact Or.inr ⟨(tid, r), hmem, by simp⟩

/-- C1: cleanup(config, self) retains a hosted region's Disk iff self is
assigned to at least one entity of that region or the region is a transfer
target for self; when neither holds, the Disk is dropped (its drop() is
issued) and the entry is removed from the map. -/
theorem cleanup_retains_iff (cfg : Configuration) (us : Instance)
    (st : DLState) (r : RegionID) (d : Disk) (hnd : nodupKeys st.disks)
    (hfind : mfind st.disks r = some d) :
    (mfind (cleanup cfg us st).1.disks r = some d ↔
      ((∃ en ins, (en, ins) ∈ cfg.entity_mapping ∧ en.region = r ∧ ins = us) ∨
        ∃ tid, (tid, r) ∈ cfg.transfersTo us)) ∧
    (¬ ((∃ en ins, (en, ins) ∈ cfg.entity_mapping ∧ en.region = r ∧ ins = us) ∨
        ∃ tid, (tid, r) ∈ cfg.transfersTo us) →
      mfind (cleanup cfg us st).1.disks r = none ∧ r ∈ (cleanup cfg us st).2) := by
  have hdropside : keep_for cfg us r = false →
      mfind (cleanup cfg us st).1.disks r = none ∧ r ∈ (cleanup cfg us st).2 := by
    intro hkf
    exact cleanup_fold_drops hkf st.disks (st, []) hnd
      ⟨d, mfind_mem hfind⟩ (by rw [hfind]; rfl)
  constructor
  · rw [← keep_for_iff]
    constructor
    · intro hsome
      by_contra hk
      rw [Bool.not_eq_true] at hk
      rw [(hdropside hk).1] at hsome
      exact Option.noConfusion hsome
    · intro hk
      rw [cleanup]
      rw [cleanup_fold_keep hk st.disks (st, [])]
      exact hfind
  · rw [← keep_for_iff]
    intro hk
    rw [Bool.not_eq_true] at hk
    exact hdropside hk

/-- Witness for C1 at a concrete input: a two-region state where self keeps
region A (entity assignment) and drops region B (no assignment, no
transfer). -/
theorem cleanup_retains_iff_wit :
    mfind (cleanup
        ⟨[(⟨0, 0, 0, 0⟩, 2), (⟨1, 0, 0, 0⟩, 2)],
          [(⟨⟨0, 0, 0, 0⟩, 0⟩, 5)], [], fun _ _ => 7⟩ 5
        ⟨[(⟨0, 0, 0, 0⟩, ⟨7, 2⟩), (⟨1, 0, 0, 0⟩, ⟨7, 2⟩)]⟩).1.disks
      ⟨1, 0, 0, 0⟩ = none ∧
    (⟨1, 0, 0, 0⟩ : RegionID) ∈ (cleanup
        ⟨[(⟨0, 0, 0, 0⟩, 2), (⟨1, 0, 0, 0⟩, 2)],
          [(⟨⟨0, 0, 0, 0⟩, 0⟩, 5)], [], fun _ _ => 7⟩ 5
        ⟨[(⟨0, 0, 0, 0⟩, ⟨7, 2⟩), (⟨1, 0, 0, 0⟩, ⟨7, 2⟩)]⟩).2 := by
  have h := cleanup_retains_iff
    ⟨[(⟨0, 0, 0, 0⟩, 2), (⟨1, 0, 0, 0⟩, 2)],
      [(⟨⟨0, 0, 0, 0⟩, 0⟩, 5)], [], fun _ _ => 7⟩ 5
    ⟨[(⟨0, 0, 0, 0⟩, ⟨7, 2⟩), (⟨1, 0, 0, 0⟩, ⟨7, 2⟩)]⟩
    ⟨1, 0, 0, 0⟩ ⟨7, 2⟩ (by decide) (by decide)
  exact h.2 (fun hp => absurd ((keep_for_iff _ 5 _).mpr hp) (by decide))

/- ### prepare lemmas -/

theorem prepEntityStep_eq_gen (cfg : Configuration) (us : Instance)
    (snapshot : List (RegionID × Disk)) :
    prepEntityStep cfg us snapshot =
      genStep (entityCond cfg us snapshot) (fun p => p.1.region)
        (fun p => cfg.disk_hasher p.1.region.space p.1.region.subspace)
        (fun p => mfind cfg.regions p.1.region) := by
  funext s p
  unfold prepEntityStep genStep entityCond
  by_cases h : p.1.space ≠ sentinelSpace ∧ p.2 = us ∧
      mfind snapshot p.1.region = none
  · simp [h]
  · simp [h]

theorem prepTransferStep_eq_gen (cfg : Configuration) (us : Instance)
    (snapshot : List (RegionID × Disk)) :
    prepTransferStep cfg us snapshot =
      genStep (transferCond snapshot) (fun t => t.2)
        (fun t => cfg.disk_hasher t.2.space t.2.subspace)
        (fun t => mfind cfg.regions t.2) := by
  funext s t
  unfold prepTransferStep genStep transferCond
  by_cases h : mfind snapshot t.2 = none
  · simp [h]
  · simp [h]

theorem genStep_creates {α : Type} (c : α → Bool) (reg : α → RegionID)
    (hsh : α → Nat) (lk : α → Option Nat) (s : PrepState) (x : α) :
    (genStep c reg hsh lk s x).creates =
      s.creates ++ (genEmit c reg hsh lk x).toList := by
  unfold genStep genEmit
  by_cases hc : c x = true
  · rw [if_pos hc, if_pos hc]
    cases hl : lk x with
    | none => simp
    | some sz => simp [create_disk]
  · rw [if_neg hc, if_neg hc]
    simp

theorem genStep_errors {α : Type} (c : α → Bool) (reg : α → RegionID)
    (hsh : α → Nat) (lk : α → Option Nat) (s : PrepState) (x : α) :
    (genStep c reg hsh lk s x).errors =
      s.errors + (if c x && decide (lk x = none) then 1 else 0) := by
  unfold genStep
  by_cases hc : c x = true
  · rw [if_pos hc]
    cases hl : lk x with
    | none => simp [hc, hl]
    | some sz => simp [create_disk, hc, hl]
  · rw [if_neg hc]
    rw [Bool.not_eq_true] at hc
    simp [hc]

theorem genStep_mono {α : Type} (c : α → Bool) (reg : α → RegionID)
    (hsh : α → Nat) (lk : α → Option Nat) (s : PrepState) (x : α)
    {r : RegionID} {d : Disk} (h : mfind s.disks r = some d) :
    mfind (genStep c reg hsh lk s x).disks r = some d := by
  unfold genStep
  by_cases hc : c x = true
  · rw [if_pos hc]
    cases hl : lk x with
    | none => exact h
    | some sz => exact mfind_minsert_preserve _ _ h
  · rw [if_neg hc]
    exact h

theorem genStep_disks_id {α : Type} (c : α → Bool) (reg : α → RegionID)
    (hsh : α → Nat) (lk : α → Option Nat) (s : PrepState) (x : α)
    (hx : genEmit c reg hsh lk x = none) :
    (genStep c reg hsh lk s x).disks = s.disks := by
  unfold genEmit at hx
  unfold genStep
  by_cases hc : c x = true
  · rw [if_pos hc] at hx ⊢
    cases hl : lk x with
    | none => rfl
    | some sz => rw [hl] at hx; exact Option.noConfusion hx
  · rw [if_neg hc]

theorem genStep_created {α : Type} (c : α → Bool) (reg : α → RegionID)
    (hsh : α → Nat) (lk : α → Option Nat) (s : PrepState) (x : α)
    {cc : CreateCall} (hemit : genEmit c reg hsh lk x = some cc) :
    (mfind (genStep c reg hsh lk s x).disks cc.region).isSome := by
  unfold genEmit at hemit
  unfold genStep
  by_cases hc : c x = true
  · rw [if_pos hc] at hemit ⊢
    cases hl : lk x with
    | none => rw [hl] at hemit; exact Option.noConfusion hemit
    | some sz =>
      rw [hl] at hemit
      have hcc : cc.region = reg x := by
        simp at hemit
        rw [← hemit]
      rw [hcc]
      exact mfind_minsert_isSome _ _ _
  · rw [if_neg hc] at hemit
    exact Option.noConfusion hemit

theorem genStep_nodup {α : Type} (c : α → Bool) (reg : α → RegionID)
    (hsh : α → Nat) (lk : α → Option Nat) (s : PrepState) (x : α)
    (h : nodupKeys s.disks) : nodupKeys (genStep c reg hsh lk s x).disks := by
  unfold genStep
  by_cases hc : c x = true
  · rw [if_pos hc]
    cases hl : lk x with
    | none => exact h
    | some sz => exact nodupKeys_minsert _ _ h
  · rw [if_neg hc]
    exact h

theorem genFold_creates {α : Type} (c : α → Bool) (reg : α → RegionID)
    (hsh : α → Nat) (lk : α → Option Nat) :
    ∀ (l : List α) (s : PrepState),
      (l.foldl (genStep c reg hsh lk) s).creates =
        s.creates ++ l.filterMap (genEmit c reg hsh lk) := by
  intro l
  induction l with
  | nil => intro s; simp
  | cons x rest ih =>
    intro s
    rw [List.foldl_cons, ih, List.filterMap_cons, genStep_creates]
    cases hemit : genEmit c reg hsh lk x with
    | none => simp
    | some cc => simp

theorem genFold_errors {α : Type} (c : α → Bool) (reg : α → RegionID)
    (hsh : α → Nat) (lk : α → Option Nat) :
    ∀ (l : List α) (s : PrepState),
      (l.foldl (genStep c reg hsh lk) s).errors =
        s.errors + l.countP (fun x => c x && decide (lk x = none)) := by
  intro l
  induction l with
  | nil => intro s; simp
  | cons x rest ih =>
    intro s
    rw [List.foldl_cons, ih, List.countP_cons, genStep_errors]
    by_cases hb : (c x && decide (lk x = none)) = true
    · simp [hb]
      omega
    · rw [Bool.not_eq_true] at hb
      simp [hb]

theorem genFold_mono {α : Type} (c : α → Bool) (reg : α → RegionID)
    (hsh : α → Nat) (lk : α → Option Nat) {r : RegionID} {d : Disk} :
    ∀ (l : List α) (s : PrepState), mfind s.disks r = some d →
      mfind (l.foldl (genStep c reg hsh lk) s).disks r = some d := by
  intro l
  induction l with
  | nil => intro s h; exact h
  | cons x rest ih =>
    intro s h
    rw [List.foldl_cons]
    exact ih _ (genStep_mono _ _ _ _ _ _ h)

theorem genFold_isSome {α : Type} (c : α → Bool) (reg : α → RegionID)
    (hsh : α → Nat) (lk : α → Option Nat) {r : RegionID} :
    ∀ (l : List α) (s : PrepState), (mfind s.disks r).isSome →
      (mfind (l.foldl (genStep c reg hsh lk) s).disks r).isSome := by
  intro l s h
  obtain ⟨d, hd⟩ := Option.isSome_iff_exists.mp h
  rw [genFold_mono c reg hsh lk l s hd]
  rfl

theorem genFold_created {α : Type} (c : α → Bool) (reg : α → RegionID)
    (hsh : α → Nat) (lk : α → Option Nat) {cc : CreateCall} :
    ∀ (l : List α) (s : PrepState) (x : α), x ∈ l →
      genEmit c reg hsh lk x = some cc →
      (mfind (l.foldl (genStep c reg hsh lk) s).disks cc.region).isSome := by
  intro l
  induction l with
  | nil => intro s x hx; simp at hx
  | cons y rest ih =>
    intro s x hx hemit
    rw [List.foldl_cons]
    rcases List.mem_cons.mp hx with heq | hmem
    · subst heq
      exact genFold_isSome _ _ _ _ _ _ (genStep_created _ _ _ _ _ _ hemit)
    · exact ih _ x hmem hemit

theorem genFold_disks_id {α : Type} (c : α → Bool) (reg : α → RegionID)
    (hsh : α → Nat) (lk : α → Option Nat) :
    ∀ (l : List α) (s : PrepState),
      (∀ x ∈ l, genEmit c reg hsh lk x = none) →
      (l.foldl (genStep c reg hsh lk) s).disks = s.disks := by
  intro l
  induction l with
  | nil => intro s _; rfl
  | cons x rest ih =>
    intro s hnone
    rw [List.foldl_cons,
      ih _ (fun y hy => hnone y (List.mem_cons_of_mem _ hy)),
      genStep_disks_id _ _ _ _ _ _ (hnone x (by simp))]

theorem genFold_nodup {α : Type} (c : α → Bool) (reg : α → RegionID)
    (hsh : α → Nat) (lk : α → Option Nat) :
    ∀ (l : List α) (s : PrepState), nodupKeys s.disks →
      nodupKeys (l.foldl (genStep c reg hsh lk) s).disks := by
  intro l
  induction l with
  | nil => intro s h; exact h
  | cons x rest ih =>
    intro s h
    rw [List.foldl_cons]
    exact ih _ (genStep_nodup _ _ _ _ _ _ h)

/-- prepare unfolded to the generic fold shape. -/
theorem prepare_eq_gen (cfg : Configuration) (us : Instance) (st : DLState) :
    prepare cfg us st =
      (cfg.transfersTo us).foldl
        (genStep (transferCond st.disks) (fun t => t.2)
          (fun t => cfg.disk_hasher t.2.space t.2.subspace)
          (fun t => mfind cfg.regions t.2))
        (cfg.entity_mapping.foldl
          (genStep (entityCond cfg us st.disks) (fun p => p.1.region)
            (fun p => cfg.disk_hasher p.1.region.space p.1.region.subspace)
            (fun p => mfind cfg.regions p.1.region))
          ⟨st.disks, [], 0⟩) := by
  rw [prepare, prepEntityStep_eq_gen, prepTransferStep_eq_gen]

theorem prepare_creates_decomp (cfg : Configuration) (us : Instance)
    (st : DLState) :
    (prepare cfg us st).creates =
      cfg.entity_mapping.filterMap (emitEntity cfg us st.disks) ++
        (cfg.transfersTo us).filterMap (emitTransfer cfg st.disks) := by
  rw [prepare_eq_gen, genFold_creates, genFold_creates]
  rfl

theorem prepare_disks_mono (cfg : Configuration) (us : Instance)
    (st : DLState) {r : RegionID} {d : Disk} (h : mfind st.disks r = some d) :
    mfind (prepare cfg us st).disks r = some d := by
  rw [prepare_eq_gen]
  exact genFold_mono _ _ _ _ _ _ (genFold_mono _ _ _ _ _ _ h)

theorem prepare_created_hosted (cfg : Configuration) (us : Instance)
    (st : DLState) {cc : CreateCall}
    (h : cc ∈ (prepare cfg us st).creates) :
    (mfind (prepare cfg us st).disks cc.region).isSome := by
  rw [prepare_creates_decomp] at h
  rw [prepare_eq_gen]
  rcases List.mem_append.mp h with hl | hr
  · obtain ⟨p, hp, hemit⟩ := List.mem_filterMap.mp hl
    exact genFold_isSome _ _ _ _ _ _ (genFold_created _ _ _ _ _ _ p hp hemit)
  · obtain ⟨t, ht, hemit⟩ := List.mem_filterMap.mp hr
    exact genFold_created _ _ _ _ _ _ t ht hemit

theorem prepare_nodup (cfg : Configuration) (us : Instance) (st : DLState)
    (h : nodupKeys st.disks) : nodupKeys (prepare cfg us st).disks := by
  rw [prepare_eq_gen]
  exact genFold_nodup _ _ _ _ _ _ (genFold_nodup _ _ _ _ _ _ h)

theorem emitEntity_eq_some (cfg : Configuration) (us : Instance)
    (snap : List (RegionID × Disk)) (p : EntityID × Instance)
    (cc : CreateCall) :
    emitEntity cfg us snap p = some cc ↔
      ((p.1.space ≠ sentinelSpace ∧ p.2 = us ∧ mfind snap p.1.region = none) ∧
        ∃ sz, mfind cfg.regions p.1.region = some sz ∧
          cc = ⟨p.1.region,
            cfg.disk_hasher p.1.region.space p.1.region.subspace, sz⟩) := by
  unfold emitEntity genEmit entityCond
  by_cases h : p.1.space ≠ sentinelSpace ∧ p.2 = us ∧
      mfind snap p.1.region = none
  · cases hl : mfind cfg.regions p.1.region with
    | none => simp [h, hl]
    | some sz => simp [h, hl, eq_comm]
  · simp [h]

theorem emitTransfer_eq_some (cfg : Configuration)
    (snap : List (RegionID × Disk)) (t : Nat × RegionID) (cc : CreateCall) :
    emitTransfer cfg snap t = some cc ↔
      (mfind snap t.2 = none ∧
        ∃ sz, mfind cfg.regions t.2 = some sz ∧
          cc = ⟨t.2, cfg.disk_hasher t.2.space t.2.subspace, sz⟩) := by
  unfold emitTransfer genEmit transferCond
  by_cases h : mfind snap t.2 = none
  · cases hl : mfind cfg.regions t.2 with
    | none => simp [h, hl]
    | some sz => simp [h, hl, eq_comm]
  · simp [h]

/-- C2: prepare creates a Disk for exactly the regions of non-sentinel
entity assignments to self not yet hosted and the transfer targets of self
not yet hosted (in both cases provided the region has a column-count
entry); every creation uses the hashing strategy of the region's subspace
and the column count of the region table; a referenced region that is
absent from the column-count table is skipped with an error logged instead
of created, and prepare is a total function (it does not fail). -/
theorem prepare_creates_exactly (cfg : Configuration) (us : Instance)
    (st : DLState) (r : RegionID) :
    ((∃ cc ∈ (prepare cfg us st).creates, cc.region = r) ↔
      ((∃ en ins, (en, ins) ∈ cfg.entity_mapping ∧ en.region = r ∧
          en.space ≠ sentinelSpace ∧ ins = us ∧ mfind st.disks r = none ∧
          (mfind cfg.regions r).isSome) ∨
        (∃ tid, (tid, r) ∈ cfg.transfersTo us ∧ mfind st.disks r = none ∧
          (mfind cfg.regions r).isSome))) ∧
    (∀ cc ∈ (prepare cfg us st).creates,
      cc.hasher = cfg.disk_hasher cc.region.space cc.region.subspace ∧
      mfind cfg.regions cc.region = some cc.columns) ∧
    (prepare cfg us st).errors =
      cfg.entity_mapping.countP
        (fun p => entityCond cfg us st.disks p &&
          decide (mfind cfg.regions p.1.region = none)) +
      (cfg.transfersTo us).countP
        (fun t => transferCond st.disks t &&
          decide (mfind cfg.regions t.2 = none)) := by
  refine ⟨?_, ?_, ?_⟩
  · rw [prepare_creates_decomp]
    constructor
    · rintro ⟨cc, hcc, hr⟩
      rcases List.mem_append.mp hcc with hl | hrr
      · obtain ⟨p, hp, hemit⟩ := List.mem_filterMap.mp hl
        obtain ⟨⟨h1, h2, h3⟩, sz, hsz, hcceq⟩ :=
          (emitEntity_eq_some cfg us st.disks p cc).mp hemit
        have hreg : p.1.region = r := by rw [← hr, hcceq]
        refine Or.inl ⟨p.1, p.2, hp, hreg, h1, h2, ?_, ?_⟩
        · rw [← hreg]; exact h3
        · rw [← hreg, hsz]; rfl
      · obtain ⟨t, ht, hemit⟩ := List.mem_filterMap.mp hrr
        obtain ⟨h1, sz, hsz, hcceq⟩ :=
          (emitTransfer_eq_some cfg st.disks t cc).mp hemit
        have hreg : t.2 = r := by rw [← hr, hcceq]
        refine Or.inr ⟨t.1, ?_, ?_, ?_⟩
        · rw [← hreg]; exact ht
        · rw [← hreg]; exact h1
        · rw [← hreg, hsz]; rfl
    · rintro (⟨en, ins, hmem, hreg, h1, h2, h3, h4⟩ | ⟨tid, hmem, h3, h4⟩)
      · obtain ⟨sz, hsz⟩ := Option.isSome_iff_exists.mp h4
        refine ⟨⟨en.region, cfg.disk_hasher en.region.space en.region.subspace,
          sz⟩, List.mem_append_left _ (List.mem_filterMap.mpr
            ⟨(en, ins), hmem, ?_⟩), hreg⟩
        rw [emitEntity_eq_some]
        exact ⟨⟨h1, h2, by rw [hreg]; exact h3⟩, sz,
          by rw [hreg]; exact hsz, rfl⟩
      · refine ⟨⟨r, cfg.disk_hasher r.space r.subspace,
          (mfind cfg.regions r).get h4⟩, List.mem_append_right _
            (List.mem_filterMap.mpr ⟨(tid, r), hmem, ?_⟩), rfl⟩
        rw [emitTransfer_eq_some]
        exact ⟨h3, (mfind cfg.regions r).get h4,
          by rw [Option.some_get], rfl⟩
  · intro cc hcc
    rw [prepare_creates_decomp] at hcc
    rcases List.mem_append.mp hcc with hl | hrr
    · obtain ⟨p, _, hemit⟩ := List.mem_filterMap.mp hl
      obtain ⟨_, sz, hsz, hcceq⟩ :=
        (emitEntity_eq_some cfg us st.disks p cc).mp hemit
      subst hcceq
      exact ⟨rfl, hsz⟩
    · obtain ⟨t, _, hemit⟩ := List.mem_filterMap.mp hrr
      obtain ⟨_, sz, hsz, hcceq⟩ :=
        (emitTransfer_eq_some cfg st.disks t cc).mp hemit
      subst hcceq
      exact ⟨rfl, hsz⟩
  · rw [prepare_eq_gen, genFold_errors, genFold_errors]
    simp

/-- Witness for C2: in cfgA, instance 5 is assigned regA, which is not yet
hosted and has a column count, so prepare creates a Disk for regA. -/
theorem prepare_creates_exactly_wit :
    ∃ cc ∈ (prepare cfgA 5 ⟨[]⟩).creates, cc.region = regA :=
  (prepare_creates_exactly cfgA 5 ⟨[]⟩ regA).1.mpr
    (Or.inl ⟨⟨regA, 0⟩, 5, by decide, rfl, by decide, rfl, by decide,
      by decide⟩)

/-- C4: prepare is idempotent: re-running prepare with the same
configuration and the same self instance leaves the region-to-Disk map
exactly as it was after the first run and issues no disk-creation call. -/
theorem prepare_idempotent (cfg : Configuration) (us : Instance)
    (st : DLState) :
    (prepare cfg us (prepare cfg us st).toState).disks =
      (prepare cfg us st).disks ∧
    (prepare cfg us (prepare cfg us st).toState).creates = [] := by
  have hent : ∀ p ∈ cfg.entity_mapping,
      emitEntity cfg us (prepare cfg us st).toState.disks p = none := by
    intro p hp
    cases hcc : emitEntity cfg us (prepare cfg us st).toState.disks p with
    | none => rfl
    | some cc =>
      exfalso
      obtain ⟨⟨h1, h2, h3⟩, sz, hsz, hcceq⟩ :=
        (emitEntity_eq_some cfg us _ p cc).mp hcc
      have h3' : mfind (prepare cfg us st).disks p.1.region = none := h3
      cases hm : mfind st.disks p.1.region with
      | some d =>
        have := prepare_disks_mono cfg us st hm
        rw [h3'] at this
        exact Option.noConfusion this
      | none =>
        have hemit1 : emitEntity cfg us st.disks p = some
            ⟨p.1.region,
              cfg.disk_hasher p.1.region.space p.1.region.subspace, sz⟩ :=
          (emitEntity_eq_some cfg us st.disks p _).mpr
            ⟨⟨h1, h2, hm⟩, sz, hsz, rfl⟩
        have hin := @prepare_created_hosted cfg us st ⟨p.1.region,
            cfg.disk_hasher p.1.region.space p.1.region.subspace, sz⟩
          (by
            rw [prepare_creates_decomp]
            exact List.mem_append_left _
              (List.mem_filterMap.mpr ⟨p, hp, hemit1⟩))
        have hin' : (mfind (prepare cfg us st).disks p.1.region).isSome :=
          hin
        rw [h3'] at hin'
        exact Bool.noConfusion hin'
  have htra : ∀ t ∈ cfg.transfersTo us,
      emitTransfer cfg (prepare cfg us st).toState.disks t = none := by
    intro t ht
    cases hcc : emitTransfer cfg (prepare cfg us st).toState.disks t with
    | none => rfl
    | some cc =>
      exfalso
      obtain ⟨h3, sz, hsz, hcceq⟩ :=
        (emitTransfer_eq_some cfg _ t cc).mp hcc
      have h3' : mfind (prepare cfg us st).disks t.2 = none := h3
      cases hm : mfind st.disks t.2 with
      | some d =>
        have := prepare_disks_mono cfg us st hm
        rw [h3'] at this
        exact Option.noConfusion this
      | none =>
        have hemit1 : emitTransfer cfg st.disks t = some
            ⟨t.2, cfg.disk_hasher t.2.space t.2.subspace, sz⟩ :=
          (emitTransfer_eq_some cfg st.disks t _).mpr ⟨hm, sz, hsz, rfl⟩
        have hin := @prepare_created_hosted cfg us st ⟨t.2,
            cfg.disk_hasher t.2.space t.2.subspace, sz⟩
          (by
            rw [prepare_creates_decomp]
            exact List.mem_append_right _
              (List.mem_filterMap.mpr ⟨t, ht, hemit1⟩))
        have hin' : (mfind (prepare cfg us st).disks t.2).isSome := hin
        rw [h3'] at hin'
        exact Bool.noConfusion hin'
  constructor
  · rw [prepare_eq_gen cfg us (prepare cfg us st).toState,
      genFold_disks_id _ _ _ _ _ _ htra, genFold_disks_id _ _ _ _ _ _ hent]
    rfl
  · rw [prepare_creates_decomp]
    rw [List.filterMap_eq_nil_iff.mpr hent, List.filterMap_eq_nil_iff.mpr htra]
    rfl

/-- C9: within a single prepare invocation the disk-creation call can be
issued twice for the same region (here: two self-assigned replicas of
regA), because the not-yet-hosted check consults the snapshot taken before
any creation; nevertheless the map keeps at most one Disk per region,
because inserting a duplicate key leaves the existing entry in place (and
more generally key-uniqueness of the map is preserved by prepare). -/
theorem prepare_duplicate_create_calls :
    ((prepare cfgDup 5 ⟨[]⟩).creates.countP
        (fun cc => decide (cc.region = regA)) = 2 ∧
      (prepare cfgDup 5 ⟨[]⟩).disks.length = 1) ∧
    (∀ (cfg : Configuration) (us : Instance) (st : DLState),
      nodupKeys st.disks → nodupKeys (prepare cfg us st).disks) :=
  ⟨⟨by decide, by decide⟩, fun cfg us st h => prepare_nodup cfg us st h⟩

/-- Witness for C9: the key-uniqueness part applied to the empty state. -/
theorem prepare_duplicate_create_calls_wit :
    nodupKeys (DLState.mk []).disks ∧ nodupKeys (prepare cfgDup 5 ⟨[]⟩).disks :=
  ⟨by decide, prepare_duplicate_create_calls.2 cfgDup 5 ⟨[]⟩ (by decide)⟩

/- ### get / put / del -/

/-- C5: get, put and del on a region absent from the region-to-Disk map
return MISSINGDISK and leave the state unchanged; on a hosted region they
delegate to that region's Disk and return its result, again leaving the
directory state unchanged. -/
theorem get_put_del_dispatch (diskGet : Disk → Nat → ReturnCode)
    (diskPut : Disk → Nat → List Nat → Nat → ReturnCode)
    (diskDel : Disk → Nat → ReturnCode) (st : DLState) (ri : RegionID)
    (key : Nat) (value : List Nat) (version : Nat) :
    (get_region st ri = none →
      dl_get diskGet st ri key = (ReturnCode.MISSINGDISK, st) ∧
      dl_put diskPut st ri key value version = (ReturnCode.MISSINGDISK, st) ∧
      dl_del diskDel st ri key = (ReturnCode.MISSINGDISK, st)) ∧
    (∀ d, get_region st ri = some d →
      dl_get diskGet st ri key = (diskGet d key, st) ∧
      dl_put diskPut st ri key value version =
        (diskPut d key value version, st) ∧
      dl_del diskDel st ri key = (diskDel d key, st)) := by
  constructor
  · intro h
    rw [dl_get, dl_put, dl_del, h]
    exact ⟨rfl, rfl, rfl⟩
  · intro d h
    rw [dl_get, dl_put, dl_del, h]
    exact ⟨rfl, rfl, rfl⟩

/-- Witness for C5: on the empty directory every operation reports
MISSINGDISK, and on a directory hosting regA the operations return the
disk's own results. -/
theorem get_put_del_dispatch_wit :
    (dl_get (fun _ _ => ReturnCode.SUCCESS) ⟨[]⟩ regA 0 =
      (ReturnCode.MISSINGDISK, (⟨[]⟩ : DLState)) ∧
     dl_put (fun _ _ _ _ => ReturnCode.SUCCESS) ⟨[]⟩ regA 0 [] 0 =
      (ReturnCode.MISSINGDISK, (⟨[]⟩ : DLState)) ∧
     dl_del (fun _ _ => ReturnCode.SUCCESS) ⟨[]⟩ regA 0 =
      (ReturnCode.MISSINGDISK, (⟨[]⟩ : DLState))) ∧
    dl_get (fun _ _ => ReturnCode.SUCCESS) ⟨[(regA, ⟨7, 2⟩)]⟩ regA 0 =
      (ReturnCode.SUCCESS, (⟨[(regA, ⟨7, 2⟩)]⟩ : DLState)) :=
  ⟨(get_put_del_dispatch (fun _ _ => ReturnCode.SUCCESS)
      (fun _ _ _ _ => ReturnCode.SUCCESS) (fun _ _ => ReturnCode.SUCCESS)
      ⟨[]⟩ regA 0 [] 0).1 (by decide),
   ((get_put_del_dispatch (fun _ _ => ReturnCode.SUCCESS)
      (fun _ _ _ _ => ReturnCode.SUCCESS) (fun _ _ => ReturnCode.SUCCESS)
      ⟨[(regA, ⟨7, 2⟩)]⟩ regA 0 [] 0).2 ⟨7, 2⟩ (by decide)).1⟩

/- ### SegmentList -/

/-- C8: SegmentList.add is copy-on-write: it returns a new handle holding
all entries of the receiver plus the new entry at the end; since add is a
pure function, the receiver value it was applied to is unchanged, so every
accessor applied to the old handle returns the same result after the call
as before it; on the new handle the old indices read the old entries and
index length(L1) reads the new entry. -/
theorem segment_list_add_immutable (l : SegmentList) (x seg : Nat) :
    (l.add x seg).entries = l.entries ++ [(x, seg)] ∧
    (l.add x seg).length = l.length + 1 ∧
    (∀ i, i < l.length →
      (l.add x seg).get_lower_bound i = l.get_lower_bound i ∧
      (l.add x seg).get_segment i = l.get_segment i) ∧
    (l.add x seg).get_lower_bound l.length = x ∧
    (l.add x seg).get_segment l.length = seg := by
  refine ⟨rfl, by simp [SegmentList.add, SegmentList.length], ?_, ?_, ?_⟩
  · intro i hi
    unfold SegmentList.get_lower_bound SegmentList.get_segment SegmentList.add
    rw [List.getD_append _ _ _ _ hi]
    exact ⟨rfl, rfl⟩
  · unfold SegmentList.get_lower_bound SegmentList.add SegmentList.length
    rw [List.getD_eq_getElem?_getD, List.getElem?_append_right (by simp)]
    simp
  · unfold SegmentList.get_segment SegmentList.add SegmentList.length
    rw [List.getD_eq_getElem?_getD, List.getElem?_append_right (by simp)]
    simp

/-- Witness for C8 at a concrete list: the old index of a one-entry list
reads the same value through the extended handle. -/
theorem segment_list_add_immutable_wit :
    ((⟨[(0, 1)]⟩ : SegmentList).add 5 2).get_lower_bound 0 =
      (⟨[(0, 1)]⟩ : SegmentList).get_lower_bound 0 ∧
    ((⟨[(0, 1)]⟩ : SegmentList).add 5 2).get_segment 0 =
      (⟨[(0, 1)]⟩ : SegmentList).get_segment 0 :=
  (segment_list_add_immutable ⟨[(0, 1)]⟩ 5 2).2.2.1 0 (by decide)

/- ### The unconditional flush walk -/

theorem flushStep_eq (f m : Disk → ReturnCode) (acc : FlushOut)
    (p : RegionID × Disk) :
    flushStep f m acc p =
      ⟨acc.results ++ [(p.1, f p.2)],
        acc.mand_calls ++
          (if f p.2 = ReturnCode.DATAFULL ∨ f p.2 = ReturnCode.SEARCHFULL
            then [p.1] else []),
        acc.mand_errors ++
          (if (f p.2 = ReturnCode.DATAFULL ∨ f p.2 = ReturnCode.SEARCHFULL) ∧
              m p.2 ≠ ReturnCode.SUCCESS ∧ m p.2 ≠ ReturnCode.DIDNOTHING
            then [(p.1, m p.2)] else []),
        acc.flush_errors ++
          (if f p.2 = ReturnCode.SUCCESS ∨ f p.2 = ReturnCode.DIDNOTHING ∨
              f p.2 = ReturnCode.DATAFULL ∨ f p.2 = ReturnCode.SEARCHFULL
            then [] else [(p.1, f p.2)]),
        acc.success || decide (f p.2 = ReturnCode.SUCCESS)⟩ := by
  by_cases hm : m p.2 ≠ ReturnCode.SUCCESS ∧ m p.2 ≠ ReturnCode.DIDNOTHING <;>
    rcases hf : f p.2 <;> simp [flushStep, hf, hm]

theorem flushFold_spec (f m : Disk → ReturnCode) :
    ∀ (l : List (RegionID × Disk)) (acc : FlushOut),
      (l.foldl (flushStep f m) acc).results =
        acc.results ++ l.map (fun p => (p.1, f p.2)) ∧
      (l.foldl (flushStep f m) acc).mand_calls =
        acc.mand_calls ++ (l.filter (fun p =>
          decide (f p.2 = ReturnCode.DATAFULL ∨
            f p.2 = ReturnCode.SEARCHFULL))).map Prod.fst ∧
      (l.foldl (flushStep f m) acc).mand_errors =
        acc.mand_errors ++ l.filterMap (fun p =>
          if (f p.2 = ReturnCode.DATAFULL ∨ f p.2 = ReturnCode.SEARCHFULL) ∧
              m p.2 ≠ ReturnCode.SUCCESS ∧ m p.2 ≠ ReturnCode.DIDNOTHING
            then some (p.1, m p.2) else none) ∧
      (l.foldl (flushStep f m) acc).success =
        (acc.success || l.any (fun p => decide (f p.2 = ReturnCode.SUCCESS))) := by
  intro l
  induction l with
  | nil => intro acc; simp
  | cons p rest ih =>
    intro acc
    rw [List.foldl_cons, flushStep_eq]
    obtain ⟨ih1, ih2, ih3, ih4⟩ := ih _
    rw [ih1, ih2, ih3, ih4]
    refine ⟨by simp, ?_, ?_, by simp [Bool.or_assoc]⟩
    · rw [List.filter_cons]
      by_cases hc : f p.2 = ReturnCode.DATAFULL ∨ f p.2 = ReturnCode.SEARCHFULL
      · simp [hc]
      · simp [hc]
    · rw [List.filterMap_cons]
      by_cases hc : (f p.2 = ReturnCode.DATAFULL ∨
          f p.2 = ReturnCode.SEARCHFULL) ∧
          m p.2 ≠ ReturnCode.SUCCESS ∧ m p.2 ≠ ReturnCode.DIDNOTHING
      · simp [hc]
      · simp [hc]

theorem flushPass_results (f m : Disk → ReturnCode)
    (disks : List (RegionID × Disk)) :
    (flushPass f m disks).results = disks.map (fun p => (p.1, f p.2)) := by
  have h := (flushFold_spec f m disks ⟨[], [], [], [], false⟩).1
  rw [flushPass, h]
  rfl

theorem flushPass_mand_calls (f m : Disk → ReturnCode)
    (disks : List (RegionID × Disk)) :
    (flushPass f m disks).mand_calls = (disks.filter (fun p =>
      decide (f p.2 = ReturnCode.DATAFULL ∨
        f p.2 = ReturnCode.SEARCHFULL))).map Prod.fst := by
  have h := (flushFold_spec f m disks ⟨[], [], [], [], false⟩).2.1
  rw [flushPass, h]
  rfl

theorem flushPass_mand_errors (f m : Disk → ReturnCode)
    (disks : List (RegionID × Disk)) :
    (flushPass f m disks).mand_errors = disks.filterMap (fun p =>
      if (f p.2 = ReturnCode.DATAFULL ∨ f p.2 = ReturnCode.SEARCHFULL) ∧
          m p.2 ≠ ReturnCode.SUCCESS ∧ m p.2 ≠ ReturnCode.DIDNOTHING
        then some (p.1, m p.2) else none) := by
  have h := (flushFold_spec f m disks ⟨[], [], [], [], false⟩).2.2.1
  rw [flushPass, h]
  rfl

theorem flushPass_success (f m : Disk → ReturnCode)
    (disks : List (RegionID × Disk)) :
    (flushPass f m disks).success =
      disks.any (fun p => decide (f p.2 = ReturnCode.SUCCESS)) := by
  have h := (flushFold_spec f m disks ⟨[], [], [], [], false⟩).2.2.2
  rw [flushPass, h]
  rfl

/-- C3: in an iteration of the scheduler, do_mandatory_io is issued to a
Disk iff that same Disk's flush returned DATAFULL or SEARCHFULL in that
iteration; the flush walk visits every hosted Disk no matter what
do_mandatory_io returns (its failures are only recorded in the error log),
so a mandatory-I/O failure never aborts the walk. -/
theorem flush_full_triggers_mandatory (preO optO flushO mandO :
    Disk → ReturnCode) (runPre runOpt : Bool)
    (disks : List (RegionID × Disk)) (qs : SchedQueues) (r : RegionID) :
    (r ∈ (flushLoopIter preO optO flushO mandO runPre runOpt disks
        qs).flush.mand_calls ↔
      ∃ d, (r, d) ∈ disks ∧ (flushO d = ReturnCode.DATAFULL ∨
        flushO d = ReturnCode.SEARCHFULL)) ∧
    (flushLoopIter preO optO flushO mandO runPre runOpt disks
        qs).flush.results = disks.map (fun p => (p.1, flushO p.2)) ∧
    (∀ rc, (r, rc) ∈ (flushLoopIter preO optO flushO mandO runPre runOpt
        disks qs).flush.mand_errors ↔
      ∃ d, (r, d) ∈ disks ∧ (flushO d = ReturnCode.DATAFULL ∨
        flushO d = ReturnCode.SEARCHFULL) ∧ mandO d = rc ∧
        rc ≠ ReturnCode.SUCCESS ∧ rc ≠ ReturnCode.DIDNOTHING) := by
  have hfl : (flushLoopIter preO optO flushO mandO runPre runOpt disks
      qs).flush = flushPass flushO mandO disks := rfl
  rw [hfl]
  refine ⟨?_, flushPass_results flushO mandO disks, ?_⟩
  · rw [flushPass_mand_calls]
    constructor
    · intro h
      obtain ⟨p, hp, hfst⟩ := List.mem_map.mp h
      have hmem := List.mem_filter.mp hp
      refine ⟨p.2, ?_, by simpa using hmem.2⟩
      rw [← hfst]
      exact hmem.1
    · rintro ⟨d, hmem, hfull⟩
      exact List.mem_map.mpr ⟨(r, d),
        List.mem_filter.mpr ⟨hmem, by simpa using hfull⟩, rfl⟩
  · intro rc
    rw [flushPass_mand_errors]
    constructor
    · intro h
      obtain ⟨p, hp, hemit⟩ := List.mem_filterMap.mp h
      by_cases hc : (flushO p.2 = ReturnCode.DATAFULL ∨
          flushO p.2 = ReturnCode.SEARCHFULL) ∧
          mandO p.2 ≠ ReturnCode.SUCCESS ∧ mandO p.2 ≠ ReturnCode.DIDNOTHING
      · rw [if_pos hc] at hemit
        have h1 : p.1 = r := congrArg Prod.fst (Option.some.inj hemit)
        have h2 : mandO p.2 = rc := congrArg Prod.snd (Option.some.inj hemit)
        refine ⟨p.2, ?_, hc.1, h2, h2 ▸ hc.2.1, h2 ▸ hc.2.2⟩
        rw [← h1]
        exact hp
      · rw [if_neg hc] at hemit
        exact Option.noConfusion hemit
    · rintro ⟨d, hmem, hfull, hrc, hne1, hne2⟩
      refine List.mem_filterMap.mpr ⟨(r, d), hmem, ?_⟩
      rw [if_pos ⟨hfull, hrc ▸ hne1, hrc ▸ hne2⟩, hrc]

theorem rrLoop_no_success (op : RegionID → Option ReturnCode)
    (h : ∀ r rc, op r = some rc → rc ≠ ReturnCode.SUCCESS) :
    ∀ (n : Nat) (q acc : List RegionID),
      (rrLoop op n q acc).2.2 = false := by
  intro n
  induction n using Nat.strong_induction_on with
  | _ n ih =>
    intro q acc
    match n, q with
    | 0, q => rfl
    | 1, [] => rfl
    | n + 2, [] => rfl
    | 1, r :: rest =>
      rw [rrLoop]
      cases hop : op r with
      | none => rfl
      | some rc =>
        show (if rc = ReturnCode.SUCCESS
            then (acc ++ [r], rest ++ [r], true)
            else (acc ++ [r], rest ++ [r], false)).2.2 = false
        rw [if_neg (h r rc hop)]
    | n + 2, r :: rest =>
      rw [rrLoop]
      cases hop : op r with
      | none => exact ih n (by omega) rest acc
      | some rc =>
        show (if rc = ReturnCode.SUCCESS
            then (acc ++ [r], rest ++ [r], true)
            else rrLoop op (n + 1) (rest ++ [r]) (acc ++ [r])).2.2 = false
        rw [if_neg (h r rc hop)]
        exact ih (n + 1) (by omega) _ _

/-- C10: an iteration in which no preallocate, do_optimistic_io or flush
call returns SUCCESS ends with the sleep, regardless of what
do_mandatory_io returns — so an iteration whose only successful operation
is the mandatory I/O triggered by a DATAFULL/SEARCHFULL flush is still
treated as having done no useful work. -/
theorem mandatory_io_not_useful_work (preO optO flushO mandO :
    Disk → ReturnCode) (runPre runOpt : Bool)
    (disks : List (RegionID × Disk)) (qs : SchedQueues)
    (h : ∀ r d, (r, d) ∈ disks → preO d ≠ ReturnCode.SUCCESS ∧
      optO d ≠ ReturnCode.SUCCESS ∧ flushO d ≠ ReturnCode.SUCCESS) :
    (flushLoopIter preO optO flushO mandO runPre runOpt disks qs).sleep =
      true := by
  have hpre : ∀ (q : List RegionID),
      (if runPre then rrPass (fun r => (mfind disks r).map preO) q
        else ([], q, false)).2.2 = false := by
    intro q
    cases runPre
    · rfl
    · rw [if_pos rfl, rrPass]
      apply rrLoop_no_success
      intro r rc hop
      obtain ⟨d, hd, hrc⟩ := Option.map_eq_some'.mp hop
      rw [← hrc]
      exact (h r d (mfind_mem hd)).1
  have hopt : ∀ (q : List RegionID),
      (if runOpt then rrPass (fun r => (mfind disks r).map optO) q
        else ([], q, false)).2.2 = false := by
    intro q
    cases runOpt
    · rfl
    · rw [if_pos rfl, rrPass]
      apply rrLoop_no_success
      intro r rc hop
      obtain ⟨d, hd, hrc⟩ := Option.map_eq_some'.mp hop
      rw [← hrc]
      exact (h r d (mfind_mem hd)).2.1
  have hflush : (flushPass flushO mandO disks).success = false := by
    rw [flushPass_success]
    rw [List.any_eq_false]
    intro p hp
    simp only [decide_eq_true_eq]
    exact (h p.1 p.2 hp).2.2
  show (!((if runPre then rrPass (fun r => (mfind disks r).map preO)
      (appendNew qs.preallocate_rr disks) else
        ([], appendNew qs.preallocate_rr disks, false)).2.2 ||
    (if runOpt then rrPass (fun r => (mfind disks r).map optO)
      (appendNew qs.optimistic_rr disks) else
        ([], appendNew qs.optimistic_rr disks, false)).2.2 ||
    (flushPass flushO mandO disks).success)) = true
  rw [hpre, hopt, hflush]
  rfl

/-- Witness for C10: a single hosted region whose flush reports DATAFULL
and whose mandatory I/O succeeds; do_mandatory_io is issued (the scenario
of the claim) and the iteration still sleeps. -/
theorem mandatory_io_not_useful_work_wit :
    (flushLoopIter (fun _ => ReturnCode.DIDNOTHING)
      (fun _ => ReturnCode.DIDNOTHING) (fun _ => ReturnCode.DATAFULL)
      (fun _ => ReturnCode.SUCCESS) true true [(regA, ⟨7, 2⟩)]
      ⟨[], []⟩).sleep = true ∧
    (flushLoopIter (fun _ => ReturnCode.DIDNOTHING)
      (fun _ => ReturnCode.DIDNOTHING) (fun _ => ReturnCode.DATAFULL)
      (fun _ => ReturnCode.SUCCESS) true true [(regA, ⟨7, 2⟩)]
      ⟨[], []⟩).flush.mand_calls = [regA] :=
  ⟨mandatory_io_not_useful_work (fun _ => ReturnCode.DIDNOTHING)
      (fun _ => ReturnCode.DIDNOTHING) (fun _ => ReturnCode.DATAFULL)
      (fun _ => ReturnCode.SUCCESS) true true [(regA, ⟨7, 2⟩)] ⟨[], []⟩
      (by
        intro r d hm
        refine ⟨?_, ?_, ?_⟩ <;> simp),
    by decide⟩

/- ### Stale queue entries (C7) -/

theorem rrLoop_not_attempted (op : RegionID → Option ReturnCode)
    {s : RegionID} (hs : op s = none) :
    ∀ (n : Nat) (q acc : List RegionID), s ∉ acc →
      s ∉ (rrLoop op n q acc).1 := by
  intro n
  induction n using Nat.strong_induction_on with
  | _ n ih =>
    intro q acc hacc
    have hne : ∀ r rc, op r = some rc → s ≠ r := by
      intro r rc hop hsr
      rw [← hsr, hs] at hop
      exact Option.noConfusion hop
    match n, q with
    | 0, q => exact hacc
    | 1, [] => exact hacc
    | n + 2, [] => exact hacc
    | 1, r :: rest =>
      rw [rrLoop]
      cases hop : op r with
      | none => exact hacc
      | some rc =>
        show s ∉ (if rc = ReturnCode.SUCCESS
            then (acc ++ [r], rest ++ [r], true)
            else (acc ++ [r], rest ++ [r], false)).1
        have : s ∉ acc ++ [r] := by
          rw [List.mem_append, List.mem_singleton]
          rintro (h1 | h2)
          · exact hacc h1
          · exact hne r rc hop h2
        by_cases hrc : rc = ReturnCode.SUCCESS
        · rw [if_pos hrc]; exact this
        · rw [if_neg hrc]; exact this
    | n + 2, r :: rest =>
      rw [rrLoop]
      cases hop : op r with
      | none => exact ih n (by omega) rest acc hacc
      | some rc =>
        show s ∉ (if rc = ReturnCode.SUCCESS
            then (acc ++ [r], rest ++ [r], true)
            else rrLoop op (n + 1) (rest ++ [r]) (acc ++ [r])).1
        have hacc' : s ∉ acc ++ [r] := by
          rw [List.mem_append, List.mem_singleton]
          rintro (h1 | h2)
          · exact hacc h1
          · exact hne r rc hop h2
        by_cases hrc : rc = ReturnCode.SUCCESS
        · rw [if_pos hrc]; exact hacc'
        · rw [if_neg hrc]
          exact ih (n + 1) (by omega) _ _ hacc'

theorem rrLoop_queue_countP (op : RegionID → Option ReturnCode)
    (p : RegionID → Bool) :
    ∀ (n : Nat) (q acc : List RegionID),
      (rrLoop op n q acc).2.1.countP p ≤ q.countP p := by
  intro n
  induction n using Nat.strong_induction_on with
  | _ n ih =>
    intro q acc
    match n, q with
    | 0, q => exact Nat.le_refl _
    | 1, [] => exact Nat.le_refl _
    | n + 2, [] => exact Nat.le_refl _
    | 1, r :: rest =>
      rw [rrLoop]
      cases hop : op r with
      | none =>
        show (rest.countP p) ≤ (r :: rest).countP p
        rw [List.countP_cons]
        omega
      | some rc =>
        have hrot : (rest ++ [r]).countP p = (r :: rest).countP p := by
          simp only [List.countP_append, List.countP_cons, List.countP_nil]
          omega
        by_cases hrc : rc = ReturnCode.SUCCESS
        · show ((if rc = ReturnCode.SUCCESS
              then (acc ++ [r], rest ++ [r], true)
              else (acc ++ [r], rest ++ [r], false)).2.1.countP p) ≤ _
          rw [if_pos hrc]
          exact Nat.le_of_eq hrot
        · show ((if rc = ReturnCode.SUCCESS
              then (acc ++ [r], rest ++ [r], true)
              else (acc ++ [r], rest ++ [r], false)).2.1.countP p) ≤ _
          rw [if_neg hrc]
          exact Nat.le_of_eq hrot
    | n + 2, r :: rest =>
      rw [rrLoop]
      cases hop : op r with
      | none =>
        calc (rrLoop op n rest acc).2.1.countP p
            ≤ rest.countP p := ih n (by omega) rest acc
          _ ≤ (r :: rest).countP p := by rw [List.countP_cons]; omega
      | some rc =>
        have hrot : (rest ++ [r]).countP p = (r :: rest).countP p := by
          simp only [List.countP_append, List.countP_cons, List.countP_nil]
          omega
        by_cases hrc : rc = ReturnCode.SUCCESS
        · show ((if rc = ReturnCode.SUCCESS
              then (acc ++ [r], rest ++ [r], true)
              else rrLoop op (n + 1) (rest ++ [r]) (acc ++ [r])).2.1.countP p)
              ≤ _
          rw [if_pos hrc]
          exact Nat.le_of_eq hrot
        · show ((if rc = ReturnCode.SUCCESS
              then (acc ++ [r], rest ++ [r], true)
              else rrLoop op (n + 1) (rest ++ [r]) (acc ++ [r])).2.1.countP p)
              ≤ _
          rw [if_neg hrc]
          calc (rrLoop op (n + 1) (rest ++ [r]) (acc ++ [r])).2.1.countP p
              ≤ (rest ++ [r]).countP p := ih (n + 1) (by omega) _ _
            _ = (r :: rest).countP p := hrot

theorem appendNew_countP (p : RegionID → Bool) :
    ∀ (disks : List (RegionID × Disk)) (q : List RegionID),
      (∀ pd ∈ disks, p pd.1 = false) →
      (appendNew q disks).countP p = q.countP p := by
  intro disks
  induction disks with
  | nil => intro q _; rfl
  | cons pd rest ih =>
    intro q hnp
    rw [appendNew, List.foldl_cons]
    have hstep : (if pd.1 ∈ q then q else q ++ [pd.1]).countP p =
        q.countP p := by
      by_cases hin : pd.1 ∈ q
      · rw [if_pos hin]
      · rw [if_neg hin, List.countP_append]
        have : p pd.1 = false := hnp pd (by simp)
        simp [this]
    rw [show (List.foldl (fun acc p => if p.1 ∈ acc then acc else acc ++ [p.1])
        (if pd.1 ∈ q then q else q ++ [pd.1]) rest) =
        appendNew (if pd.1 ∈ q then q else q ++ [pd.1]) rest from rfl]
    rw [ih _ (fun y hy => hnp y (List.mem_cons_of_mem _ hy)), hstep]

/-- C7 (amended): a stale RegionID — one absent from the current map
snapshot — is never attempted by the rotate walks and is never re-added by
the observe step, so its queue count never increases; however, it does not
stay in the queue indefinitely: when a walk encounters it, it is popped
without being re-appended (lazily removed), as the counterexample shows. -/
theorem stale_entry_skipped_not_kept (preO optO flushO mandO :
    Disk → ReturnCode) (runPre runOpt : Bool)
    (disks : List (RegionID × Disk)) (qs : SchedQueues) (s : RegionID)
    (hstale : mfind disks s = none) :
    s ∉ (flushLoopIter preO optO flushO mandO runPre runOpt disks
      qs).prealloc_attempts ∧
    s ∉ (flushLoopIter preO optO flushO mandO runPre runOpt disks
      qs).optimistic_attempts ∧
    (flushLoopIter preO optO flushO mandO runPre runOpt disks
        qs).queues.preallocate_rr.countP (fun x => decide (x = s)) ≤
      qs.preallocate_rr.countP (fun x => decide (x = s)) ∧
    (flushLoopIter preO optO flushO mandO runPre runOpt disks
        qs).queues.optimistic_rr.countP (fun x => decide (x = s)) ≤
      qs.optimistic_rr.countP (fun x => decide (x = s)) := by
  have hnotkey : ∀ pd ∈ disks, decide (pd.1 = s) = false := by
    intro pd hpd
    rw [decide_eq_false_iff_not]
    intro hc
    rw [mfind_eq_none] at hstale
    exact hstale (hc ▸ List.mem_map_of_mem Prod.fst hpd)
  have happ : ∀ (q : List RegionID),
      (appendNew q disks).countP (fun x => decide (x = s)) =
        q.countP (fun x => decide (x = s)) :=
    fun q => appendNew_countP _ disks q hnotkey
  have hpreop : (fun r => (mfind disks r).map preO) s = none := by
    simp [hstale]
  have hoptop : (fun r => (mfind disks r).map optO) s = none := by
    simp [hstale]
  refine ⟨?_, ?_, ?_, ?_⟩
  · show s ∉ (if runPre
      then rrPass (fun r => (mfind disks r).map preO)
        (appendNew qs.preallocate_rr disks)
      else ([], appendNew qs.preallocate_rr disks, false)).1
    cases runPre
    · simp
    · rw [if_pos rfl, rrPass]
      exact rrLoop_not_attempted _ hpreop _ _ _ (by simp)
  · show s ∉ (if runOpt
      then rrPass (fun r => (mfind disks r).map optO)
        (appendNew qs.optimistic_rr disks)
      else ([], appendNew qs.optimistic_rr disks, false)).1
    cases runOpt
    · simp
    · rw [if_pos rfl, rrPass]
      exact rrLoop_not_attempted _ hoptop _ _ _ (by simp)
  · show (if runPre
        then rrPass (fun r => (mfind disks r).map preO)
          (appendNew qs.preallocate_rr disks)
        else ([], appendNew qs.preallocate_rr disks,
          false)).2.1.countP (fun x => decide (x = s)) ≤ _
    cases runPre
    · exact Nat.le_of_eq (happ _)
    · rw [if_pos rfl, rrPass]
      calc (rrLoop (fun r => (mfind disks r).map preO)
              (appendNew qs.preallocate_rr disks).length
              (appendNew qs.preallocate_rr disks) []).2.1.countP
              (fun x => decide (x = s))
          ≤ (appendNew qs.preallocate_rr disks).countP
              (fun x => decide (x = s)) := rrLoop_queue_countP _ _ _ _ _
        _ = qs.preallocate_rr.countP (fun x => decide (x = s)) := happ _
  · show (if runOpt
        then rrPass (fun r => (mfind disks r).map optO)
          (appendNew qs.optimistic_rr disks)
        else ([], appendNew qs.optimistic_rr disks,
          false)).2.1.countP (fun x => decide (x = s)) ≤ _
    cases runOpt
    · exact Nat.le_of_eq (happ _)
    · rw [if_pos rfl, rrPass]
      calc (rrLoop (fun r => (mfind disks r).map optO)
              (appendNew qs.optimistic_rr disks).length
              (appendNew qs.optimistic_rr disks) []).2.1.countP
              (fun x => decide (x = s))
          ≤ (appendNew qs.optimistic_rr disks).countP
              (fun x => decide (x = s)) := rrLoop_queue_countP _ _ _ _ _
        _ = qs.optimistic_rr.countP (fun x => decide (x = s)) := happ _

/-- Counterexample to C7 as stated: regB sits in the preallocation queue
and has been removed from the map; after a single iteration whose
preallocation pass runs, regB is no longer in the queue at all — the walk
popped it without re-appending it, so a stale entry does not remain in the
queue across subsequent iterations. -/
theorem stale_entry_pruned_cex :
    regB ∈ SchedQueues.preallocate_rr ⟨[regB], []⟩ ∧
    mfind ([] : List (RegionID × Disk)) regB = none ∧
    (flushLoopIter (fun _ => ReturnCode.DIDNOTHING)
        (fun _ => ReturnCode.DIDNOTHING) (fun _ => ReturnCode.DIDNOTHING)
        (fun _ => ReturnCode.DIDNOTHING) true false []
        ⟨[regB], []⟩).queues.preallocate_rr = [] := by
  refine ⟨by decide, by decide, by decide⟩

/-- Witness for C7 (amended) at a concrete input: a hosted regA and a
stale regB queued together; regB is not attempted and its queue count
does not increase. -/
theorem stale_entry_skipped_not_kept_wit :
    regB ∉ (flushLoopIter (fun _ => ReturnCode.DIDNOTHING)
      (fun _ => ReturnCode.DIDNOTHING) (fun _ => ReturnCode.DIDNOTHING)
      (fun _ => ReturnCode.DIDNOTHING) true true [(regA, ⟨7, 2⟩)]
      ⟨[regB, regA], []⟩).prealloc_attempts ∧
    (flushLoopIter (fun _ => ReturnCode.DIDNOTHING)
      (fun _ => ReturnCode.DIDNOTHING) (fun _ => ReturnCode.DIDNOTHING)
      (fun _ => ReturnCode.DIDNOTHING) true true [(regA, ⟨7, 2⟩)]
      ⟨[regB, regA], []⟩).queues.preallocate_rr.countP
        (fun x => decide (x = regB)) ≤
      (SchedQueues.preallocate_rr ⟨[regB, regA], []⟩).countP
        (fun x => decide (x = regB)) := by
  have h := stale_entry_skipped_not_kept (fun _ => ReturnCode.DIDNOTHING)
    (fun _ => ReturnCode.DIDNOTHING) (fun _ => ReturnCode.DIDNOTHING)
    (fun _ => ReturnCode.DIDNOTHING) true true [(regA, ⟨7, 2⟩)]
    ⟨[regB, regA], []⟩ regB (by decide)
  exact ⟨h.1, h.2.2.1⟩

/- ### Round-robin fairness (C6) -/

theorem rrLoop_clean (op : RegionID → Option ReturnCode) :
    ∀ (n : Nat) (q acc : List RegionID),
      (∀ r ∈ q, (op r).isSome) → 0 < n → n ≤ q.length →
      ∃ u b, 1 ≤ u ∧ u ≤ n ∧
        rrLoop op n q acc = (acc ++ q.take u, q.drop u ++ q.take u, b) := by
  intro n
  induction n using Nat.strong_induction_on with
  | _ n ih =>
    intro q acc hlive hpos hlen
    match n, q with
    | 0, q => exact absurd hpos (by omega)
    | n + 1, [] => exact absurd hlen (by simp)
    | 1, r :: rest =>
      obtain ⟨rc, hop⟩ := Option.isSome_iff_exists.mp (hlive r (by simp))
      have hstep : rrLoop op 1 (r :: rest) acc =
          (if rc = ReturnCode.SUCCESS then (acc ++ [r], rest ++ [r], true)
            else (acc ++ [r], rest ++ [r], false)) := by
        rw [rrLoop, hop]
      by_cases hrc : rc = ReturnCode.SUCCESS
      · exact ⟨1, true, Nat.le_refl 1, Nat.le_refl 1,
          by rw [hstep, if_pos hrc]; rfl⟩
      · exact ⟨1, false, Nat.le_refl 1, Nat.le_refl 1,
          by rw [hstep, if_neg hrc]; rfl⟩
    | n + 2, r :: rest =>
      obtain ⟨rc, hop⟩ := Option.isSome_iff_exists.mp (hlive r (by simp))
      have hstep : rrLoop op (n + 2) (r :: rest) acc =
          (if rc = ReturnCode.SUCCESS then (acc ++ [r], rest ++ [r], true)
            else rrLoop op (n + 1) (rest ++ [r]) (acc ++ [r])) := by
        rw [rrLoop, hop]
      by_cases hrc : rc = ReturnCode.SUCCESS
      · exact ⟨1, true, by omega, by omega, by rw [hstep, if_pos hrc]; rfl⟩
      · have hrestlen : n + 1 ≤ rest.length := by
          simp only [List.length_cons] at hlen
          omega
        have hlive' : ∀ r' ∈ rest ++ [r], (op r').isSome := by
          intro r' hr'
          rcases List.mem_append.mp hr' with h | h
          · exact hlive r' (List.mem_cons_of_mem _ h)
          · rw [List.mem_singleton] at h
            subst h
            exact hlive r' (by simp)
        obtain ⟨u', b, hu1, hu2, heq⟩ := ih (n + 1) (by omega) (rest ++ [r])
          (acc ++ [r]) hlive' (by omega) (by simp; omega)
        refine ⟨u' + 1, b, by omega, by omega, ?_⟩
        rw [hstep, if_neg hrc, heq]
        have hu'le : u' ≤ rest.length := by omega
        rw [List.take_append_of_le_length hu'le,
          List.drop_append_of_le_length hu'le]
        have ht2 : (r :: rest).take (u' + 1) = r :: rest.take u' := rfl
        have hd2 : (r :: rest).drop (u' + 1) = rest.drop u' := rfl
        rw [ht2, hd2]
        simp

theorem rrWindows_fair :
    ∀ (ops : List (RegionID → Option ReturnCode)) (q : List RegionID),
      (∀ op ∈ ops, ∀ r ∈ q, (op r).isSome) →
      ∀ (p : Nat) (r : RegionID), q[p]? = some r → p < ops.length →
      r ∈ (rrWindows ops q).1 := by
  intro ops
  induction ops with
  | nil =>
    intro q _ p r _ hp
    simp at hp
  | cons op rest ih =>
    intro q hlive p r hqp hp
    have hplen : p < q.length := by
      by_contra hc
      rw [List.getElem?_eq_none (by omega)] at hqp
      exact Option.noConfusion hqp
    obtain ⟨u, b, hu1, hu2, heq⟩ := rrLoop_clean op q.length q []
      (hlive op (by simp)) (by omega) (Nat.le_refl _)
    have hpass : rrPass op q = (q.take u, q.drop u ++ q.take u, b) := by
      rw [rrPass, heq]
      rfl
    show r ∈ ((rrPass op q).1 ++ (rrWindows rest (rrPass op q).2.1).1)
    rw [hpass]
    rw [List.mem_append]
    by_cases hpu : p < u
    · left
      have : (q.take u)[p]? = some r := by
        rw [List.getElem?_take]
        rw [if_pos hpu]
        exact hqp
      exact List.getElem?_mem this
    · right
      apply ih (q.drop u ++ q.take u) ?_ (p - u) r ?_ ?_
      · intro op' hop' r' hr'
        refine hlive op' (List.mem_cons_of_mem _ hop') r' ?_
        rcases List.mem_append.mp hr' with h | h
        · exact List.mem_of_mem_drop h
        · exact List.mem_of_mem_take h
      · have hlt : p - u < (q.drop u).length := by
          rw [List.length_drop]
          omega
        rw [List.getElem?_append, if_pos hlt, List.getElem?_drop]
        rw [show u + (p - u) = p by omega]
        exact hqp
      · simp only [List.length_cons] at hp
        omega

/-- C6 (amended): provided the preallocation queue holds no stale entry —
every queued region is hosted — and (as the observe step guarantees) every
hosted region is queued, then over any N consecutive preallocation windows
with N at least the number of hosted regions, and the hosted-region set
unchanged across those windows, every hosted region receives at least one
preallocate attempt. -/
theorem prealloc_round_robin_fair (disks : List (RegionID × Disk))
    (oracles : List (Disk → ReturnCode)) (q : List RegionID)
    (hnd : q.Nodup) (hlive : ∀ r ∈ q, (mfind disks r).isSome)
    (hcover : ∀ pd ∈ disks, pd.1 ∈ q)
    (hN : disks.length ≤ oracles.length) :
    ∀ r d, (r, d) ∈ disks →
      r ∈ (rrWindows
        (oracles.map (fun o => fun r => (mfind disks r).map o)) q).1 := by
  intro r d hmem
  have hrq : r ∈ q := hcover (r, d) hmem
  obtain ⟨p, hplen, hp⟩ := List.mem_iff_getElem.mp hrq
  have hqlen : q.length ≤ disks.length := by
    have h1 : q.toFinset.card = q.length := List.toFinset_card_of_nodup hnd
    have hsub : q.toFinset ⊆ (disks.map Prod.fst).toFinset := by
      intro x hx
      rw [List.mem_toFinset] at hx ⊢
      obtain ⟨dx, hdx⟩ := Option.isSome_iff_exists.mp (hlive x hx)
      exact List.mem_map_of_mem Prod.fst (mfind_mem hdx)
    have h2 := Finset.card_le_card hsub
    have h3 := List.toFinset_card_le (disks.map Prod.fst)
    rw [List.length_map] at h3
    omega
  refine rrWindows_fair _ q ?_ p r ?_ ?_
  · intro op hop r' hr'
    obtain ⟨o, _, rfl⟩ := List.mem_map.mp hop
    have := hlive r' hr'
    simpa using this
  · rw [List.getElem?_eq_getElem hplen]
    exact congrArg some hp
  · rw [List.length_map]
    omega

/-- Counterexample to C6 as stated: one hosted region (so N = 1 suffices
by the claim), the hosted set unchanged, one preallocation window — but a
stale entry at the front of the queue consumes the walk (the loop bound
i < queue.size() is re-evaluated as the queue shrinks), and the hosted
region regA receives no preallocate attempt in that window. -/
theorem prealloc_fairness_cex :
    [(regA, (⟨7, 2⟩ : Disk))].length = 1 ∧
    regA ∈ SchedQueues.preallocate_rr ⟨[regB, regA], []⟩ ∧
    mfind [(regA, (⟨7, 2⟩ : Disk))] regB = none ∧
    (flushLoopIter (fun _ => ReturnCode.DIDNOTHING)
        (fun _ => ReturnCode.DIDNOTHING) (fun _ => ReturnCode.DIDNOTHING)
        (fun _ => ReturnCode.DIDNOTHING) true false [(regA, ⟨7, 2⟩)]
        ⟨[regB, regA], []⟩).prealloc_attempts = [] := by
  refine ⟨by decide, by decide, by decide, by decide⟩

/-- Witness for C6 (amended) at a concrete input: with a clean queue
holding exactly the hosted region and one window, regA is attempted. -/
theorem prealloc_round_robin_fair_wit :
    regA ∈ (rrWindows
      ([fun _ => ReturnCode.DIDNOTHING].map
        (fun o => fun r => (mfind [(regA, (⟨7, 2⟩ : Disk))] r).map o))
      [regA]).1 :=
  prealloc_round_robin_fair [(regA, ⟨7, 2⟩)] [fun _ => ReturnCode.DIDNOTHING]
    [regA] (by decide) (by decide) (by decide) (by decide) regA ⟨7, 2⟩
    (by decide)

end Datalayer
